import Mathlib

/- Shallow embedding of the out-of-band callback capture service
   (backend/app/api/v1/callback.py and the models it uses).
   Strings are modelled as lists of characters; Python dicts as
   association lists; datetimes as integers (seconds); SQLAlchemy
   rows as structures and tables as lists. -/

abbrev Str := List Char

/-- Shorthand turning a Lean string literal into the model's string type. -/
def str (s : String) : Str := s.data

/-- Python dict lookup `m.get(k)` (keys are unique in a dict, so the first
match is the match). -/
def lookupStr (m : List (Str × Str)) (k : Str) : Option Str :=
  (m.find? (fun p => p.1 == k)).map (fun p => p.2)

/-- Starlette header lookup: case-insensitive on the header name. -/
def lowerStr (s : Str) : Str := s.map Char.toLower

/-- Starlette `request.headers.get(k)`: case-insensitive key comparison. -/
def headerGet (hs : List (Str × Str)) (k : Str) : Option Str :=
  (hs.find? (fun p => lowerStr p.1 == lowerStr k)).map (fun p => p.2)

/-- Python `s.strip()` (whitespace from both ends). -/
def pyStrip (s : Str) : Str :=
  ((s.dropWhile Char.isWhitespace).reverse.dropWhile Char.isWhitespace).reverse

/-- Python `s.split(',')[0]`: everything before the first comma. -/
def firstCommaField (s : Str) : Str := s.takeWhile (fun c => c ≠ ',')

/-- Python dict item assignment `m[k] = v`: overwrite in place when the key
exists, else append at the end (insertion order preserved). -/
def dictSet (m : List (Str × Str)) (k v : Str) : List (Str × Str) :=
  if m.any (fun p => p.1 == k) then m.map (fun p => if p.1 == k then (p.1, v) else p)
  else m ++ [(k, v)]

/-- Python truthiness of an optional string: `None` and `""` are falsy. -/
def optFalsy : Option Str → Bool
  | none => true
  | some s => s.isEmpty

/-- Python truthiness test `if body:` for the optional request body. -/
def bodyTruthy : Option Str → Bool
  | none => false
  | some s => !s.isEmpty

/- ===== data model (models/callback.py, models/poc_rule.py) ===== -/

/-- Row of `callback_tokens`. `is_active` is the Integer column; `expires_at`
is nullable (`none` = never expires). -/
structure CallbackToken where
  id : Str
  token : Str
  name : Option Str
  user_id : Str
  created_at : Int
  expires_at : Option Int
  is_active : Nat
deriving DecidableEq, Repr

/-- Row of `callback_records` as built by `handle_callback` (the columns the
handler fills; `id` and `timestamp` are store-generated and live in
`StoredRecord`). -/
structure CallbackRecord where
  token_id : Str
  token : Str
  client_ip : Str
  method : Str
  path : Str
  query_string : Option Str
  headers : List (Str × Str)
  body : Option Str
  user_agent : Option Str
  protocol : Str
  raw_request : Str
  is_poc_hit : Nat
  poc_rule_name : Option Str
  is_data_exfil : Nat
  exfil_data : Option Str
  exfil_type : Option Str
deriving DecidableEq, Repr

/-- A persisted record: the store-generated arrival timestamp plus the data
written by the handler. -/
structure StoredRecord where
  timestamp : Int
  data : CallbackRecord
deriving DecidableEq, Repr

/-- Row of `poc_rules`. Integer flags kept as `Nat` (the columns are
Integers used with Python truthiness); `response_headers` is a nullable
JSON map. -/
structure PocRule where
  id : Str
  token_id : Str
  name : Str
  description : Option Str
  status_code : Nat
  content_type : Str
  response_body : Option Str
  response_headers : Option (List (Str × Str))
  redirect_url : Option Str
  delay_ms : Nat
  enable_variables : Nat
  is_active : Nat
  hit_count : Nat
deriving DecidableEq, Repr

/-- The parts of the inbound FastAPI `Request` that `handle_callback` reads.
`query_params` is `dict(request.query_params)`; `headers` is
`dict(request.headers)` (Starlette yields decoded header pairs); `body` is
the permissively decoded body, `none` when reading it raised. -/
structure Req where
  method : Str
  url_path : Str
  url_query : Str
  query_params : List (Str × Str)
  headers : List (Str × Str)
  body : Option Str
  client_host : Option Str
deriving DecidableEq, Repr

/-- The two response classes the handler returns: `PlainTextResponse`
(fixed default bodies) and `Response` (rule-synthesized, with headers). -/
inductive HttpResp where
  | plainText (body : Str) (status : Nat)
  | response (body : Str) (status : Nat) (headers : List (Str × Str))
deriving DecidableEq, Repr

/-- What one dispatch produces: the interaction written to the store
(`none` when the token code is unknown), the rules table after any
hit-count increment, and the HTTP response. -/
structure DispatchResult where
  record : Option CallbackRecord
  rules : List PocRule
  resp : HttpResp
deriving DecidableEq, Repr

/- ===== Python str.replace and the template scanner ===== -/

/-- Fuel-driven body of Python `s.replace(pat, val)` for a nonempty `pat`:
scan left to right, replace every (non-overlapping) occurrence. Each step
consumes at least one character of `s`, so fuel `s.length` computes the
whole scan; the fuel only makes the recursion structural. -/
def replaceAllFuel : Nat → Str → Str → Str → Str
  | 0, _, _, s => s
  | Nat.succ n, pat, val, s =>
    if pat ≠ [] ∧ pat.isPrefixOf s then
      val ++ replaceAllFuel n pat val (s.drop pat.length)
    else
      match s with
      | [] => []
      | c :: rest => c :: replaceAllFuel n pat val rest

/-- Python `s.replace(pat, val)` (all the patterns the service uses are
nonempty, so the empty-pattern behaviour is irrelevant). -/
def replaceAllL (pat val s : Str) : Str := replaceAllFuel s.length pat val s

/-- ASCII word characters, the `\w` class of the template's parameter
pattern (the service's parameter names are ASCII). -/
def isWordChar (c : Char) : Bool := c.isAlphanum || c = '_'

/-- The literal text of a `param` placeholder for name `n`:
`{{param.NAME}}` (braces written as escapes). -/
def paramPat (n : Str) : Str := str "\x7b\x7bparam." ++ n ++ str "\x7d\x7d"

/-- One attempt of the regex `\{\{param\.(\w+)\}\}` at the start of `s`:
on success, the captured name and the remainder after the match. -/
def tryParamMatch (s : Str) : Option (Str × Str) :=
  if (str "\x7b\x7bparam.").isPrefixOf s then
    let rest := s.drop 8
    let name := rest.takeWhile isWordChar
    let rest2 := rest.drop name.length
    if name ≠ [] ∧ (str "\x7d\x7d").isPrefixOf rest2 then some (name, rest2.drop 2)
    else none
  else none

/-- Fuel-driven scan of `re.finditer(r'\{\{param\.(\w+)\}\}', content)`:
leftmost, non-overlapping matches, captured names in order. Each step
consumes at least one character, so fuel `s.length` scans everything. -/
def scanParamsAux : Nat → Str → List Str
  | 0, _ => []
  | Nat.succ n, s =>
    match s with
    | [] => []
    | c :: rest =>
      match tryParamMatch (c :: rest) with
      | some (name, rem) => name :: scanParamsAux n rem
      | none => scanParamsAux n rest

/-- All `{{param.NAME}}` matches of `content`, in order of occurrence. -/
def scanParams (s : Str) : List Str := scanParamsAux s.length s

/- ===== replace_variables (callback.py) ===== -/

/-- The fixed base symbol table of `replace_variables`, in the insertion
order of the Python dict literal: pattern paired with its substituted
value. `{{attacker_ip}}` and `{{attacker_port}}` map to the fixed scaffold
constants of the source. -/
def replacements (req : Req) (client_ip : Str) (token : Str) (nowIso : Str) :
    List (Str × Str) :=
  [ (str "\x7b\x7bclient_ip\x7d\x7d", if client_ip = [] then str "unknown" else client_ip),
    (str "\x7b\x7btimestamp\x7d\x7d", nowIso),
    (str "\x7b\x7bmethod\x7d\x7d", req.method),
    (str "\x7b\x7bpath\x7d\x7d", req.url_path),
    (str "\x7b\x7bhost\x7d\x7d", (headerGet req.headers (str "host")).getD (str "unknown")),
    (str "\x7b\x7buser_agent\x7d\x7d", (headerGet req.headers (str "user-agent")).getD (str "unknown")),
    (str "\x7b\x7bcallback_url\x7d\x7d", str "/c/" ++ token),
    (str "\x7b\x7battacker_ip\x7d\x7d", str "ATTACKER_IP"),
    (str "\x7b\x7battacker_port\x7d\x7d", str "4444") ]

/-- `replace_variables(content, request, client_ip, token)`: the empty
content is returned as is; otherwise one `str.replace` pass per base
symbol, in table order, then one `str.replace` pass per `{{param.NAME}}`
match found in the intermediate content (missing query parameter:
empty string). `nowIso` is the render-time `datetime.utcnow().isoformat()`. -/
def replace_variables (content : Str) (req : Req) (client_ip : Str)
    (token : Str) (nowIso : Str) : Str :=
  if content = [] then content
  else
    let query_params := req.query_params
    let afterBase :=
      (replacements req client_ip token nowIso).foldl
        (fun c p => replaceAllL p.1 p.2 c) content
    (scanParams afterBase).foldl
      (fun c n => replaceAllL (paramPat n) ((lookupStr query_params n).getD []) c)
      afterBase

/- ===== get_client_ip (callback.py) ===== -/

/-- One proxy-header attempt of `get_client_ip`: header present and
nonempty, first comma-separated field stripped, returned when nonempty. -/
def ipFromHeader (headers : List (Str × Str)) (name : Str) : Option Str :=
  match headerGet headers name with
  | none => none
  | some v =>
    if v = [] then none
    else
      let ip := pyStrip (firstCommaField v)
      if ip = [] then none else some ip

/-- `get_client_ip(request)`: the fixed priority list of proxy headers,
then `X-Forwarded-For`, then the transport peer address, else
`"unknown"`. -/
def get_client_ip (headers : List (Str × Str)) (client_host : Option Str) : Str :=
  match [str "CF-Connecting-IP", str "X-Real-IP", str "True-Client-IP",
         str "X-Client-IP"].findSome? (ipFromHeader headers) with
  | some ip => ip
  | none =>
    match ipFromHeader headers (str "X-Forwarded-For") with
    | some ip => ip
    | none =>
      match client_host with
      | some h => if h = [] then str "unknown" else h
      | none => str "unknown"

/- ===== handle_callback (callback.py) ===== -/

/-- `select(CallbackToken).where(CallbackToken.token == token)` with
`scalar_one_or_none()`: the `token` column is unique, so the first match
is the only match. -/
def resolveToken (tokens : List CallbackToken) (code : Str) : Option CallbackToken :=
  tokens.find? (fun t => t.token == code)

/-- Expiry test `db_token.expires_at and db_token.expires_at < utcnow()`. -/
def isExpiredAt (t : CallbackToken) (now : Int) : Bool :=
  match t.expires_at with
  | some e => e < now
  | none => false

/-- `path[2:].split("/")[0]`: the candidate rule name of a `p/` sub-path. -/
def ruleNameOf (path : Str) : Str := (path.drop 2).takeWhile (fun c => c ≠ '/')

/-- The rule query of the dispatcher: token's rule of that name with
`is_active == 1` (`scalar_one_or_none`; rule names are unique per token
when the creation-time check has been respected, so the first match is
taken). -/
def activeRuleLookup (rules : List PocRule) (tid : Str) (name : Str) : Option PocRule :=
  rules.find? (fun r => r.token_id == tid && r.name == name && r.is_active == 1)

/-- The `raw_request` text: request line, Host line, the other headers,
a blank line, then the body when truthy, joined with CRLF. -/
def buildRawRequest (req : Req) (body : Option Str) : Str :=
  let line1 := req.method ++ str " " ++ req.url_path ++
    (if req.url_query = [] then [] else str "?" ++ req.url_query) ++ str " HTTP/1.1"
  let line2 := str "Host: " ++ ((headerGet req.headers (str "host")).getD (str "unknown"))
  let headerLines := (req.headers.filter (fun p => lowerStr p.1 ≠ str "host")).map
    (fun p => p.1 ++ str ": " ++ p.2)
  let bodyLines := match body with
    | some b => if b = [] then [] else [b]
    | none => []
  List.intercalate (str "\x0d\x0a") ([line1, line2] ++ headerLines ++ [[]] ++ bodyLines)

/-- The fallback parameter names of the exfiltration payload resolution. -/
def fallbackKeys : List Str :=
  [str "data", str "d", str "c", str "cookie", str "file", str "cmd", str "result"]

/-- The interaction record the dispatcher writes for a resolved token:
the lines of `handle_callback` from the client-IP resolution down to
`CallbackRecord(...)`. -/
def mkRecord (db_token : CallbackToken) (token path : Str) (req : Req) :
    CallbackRecord :=
  let client_ip := get_client_ip req.headers req.client_host
  let body := req.body
  let headers_dict := req.headers
  let raw_request := buildRawRequest req body
  let query_params := req.query_params
  let is_data_exfil := lookupStr query_params (str "_exfil") == some (str "1")
  let exfil_type := if is_data_exfil then lookupStr query_params (str "_type") else none
  let exfil_data0 := if is_data_exfil then lookupStr query_params (str "_data") else none
  let exfil_data :=
    if is_data_exfil ∧ optFalsy exfil_data0 then
      let viaParams :=
        match fallbackKeys.find? (fun k => (lookupStr query_params k).isSome) with
        | some k => lookupStr query_params k
        | none => exfil_data0
      if optFalsy viaParams ∧ bodyTruthy body then some ((body.getD []).take 2000)
      else viaParams
    else exfil_data0
  let is_poc_hit := (str "p/").isPrefixOf path
  let poc_rule_name := if is_poc_hit then some (ruleNameOf path) else none
  { token_id := db_token.id
    token := token
    client_ip := client_ip
    method := req.method
    path := if path = [] then str "/" else str "/" ++ path
    query_string := if req.url_query = [] then none else some req.url_query
    headers := headers_dict
    body := match body with
      | some b => if b = [] then none else some b
      | none => none
    user_agent := headerGet req.headers (str "user-agent")
    protocol := str "HTTP"
    raw_request := raw_request
    is_poc_hit := if is_poc_hit then 1 else 0
    poc_rule_name := poc_rule_name
    is_data_exfil := if is_data_exfil then 1 else 0
    exfil_data := exfil_data
    exfil_type := exfil_type }

/-- `handle_callback(request, token, path, db)`. `now` stands for
`datetime.utcnow()` at request time and `nowIso` for its render-time ISO
form. The artificial `delay_ms` sleep only suspends and is not part of
the returned data. `db.flush` makes the record durable on the non-raising
paths modelled here, so the written record is part of the result. -/
def handle_callback (tokens : List CallbackToken) (rules : List PocRule)
    (token : Str) (path : Str) (req : Req) (now : Int) (nowIso : Str) :
    DispatchResult :=
  match resolveToken tokens token with
  | none => ⟨none, rules, .plainText (str "Not Found") 404⟩
  | some db_token =>
    let is_expired := isExpiredAt db_token now
    let client_ip := get_client_ip req.headers req.client_host
    let record := mkRecord db_token token path req
    if (str "p/").isPrefixOf path then
      let rule_name := ruleNameOf path
      match activeRuleLookup rules db_token.id rule_name with
      | some rule =>
        let rules' := rules.map
          (fun r => if r.id == rule.id then { r with hit_count := r.hit_count + 1 } else r)
        let redirectVal := rule.redirect_url.getD []
        if redirectVal ≠ [] then
          let redirect_url :=
            if rule.enable_variables ≠ 0 then
              replace_variables redirectVal req client_ip token nowIso
            else redirectVal
          ⟨some record, rules',
            .response [] (if rule.status_code = 0 then 302 else rule.status_code)
              [(str "Location", redirect_url)]⟩
        else
          let response_body0 := rule.response_body.getD []
          let response_body :=
            if rule.enable_variables ≠ 0 then
              replace_variables response_body0 req client_ip token nowIso
            else response_body0
          let response_headers :=
            dictSet (rule.response_headers.getD []) (str "Content-Type") rule.content_type
          ⟨some record, rules', .response response_body rule.status_code response_headers⟩
      | none =>
        ⟨some record, rules,
          .plainText (str "PoC Rule \x27" ++ rule_name ++ str "\x27 not found") 404⟩
    else
      if is_expired then
        ⟨some record, rules, .plainText (str "Token Expired (but recorded)") 410⟩
      else
        ⟨some record, rules, .plainText (str "OK") 200⟩

/- ===== C1 / C2: dispatcher recording and response forms ===== -/

/-- The record the dispatcher writes is exactly one per request with a
resolvable token code, none otherwise, and is built by `mkRecord` from the
token row and the raw request alone. -/
lemma handle_callback_record (tokens : List CallbackToken) (rules : List PocRule)
    (code path : Str) (req : Req) (now : Int) (nowIso : Str) :
    (handle_callback tokens rules code path req now nowIso).record
      = (resolveToken tokens code).map (fun t => mkRecord t code path req) := by
  cases h : resolveToken tokens code with
  | none => simp [handle_callback, h]
  | some t =>
    simp only [handle_callback, h, Option.map_some']
    split
    · split
      · split <;> rfl
      · rfl
    · split <;> rfl

/-- C1: for every capture request whose token code resolves, the dispatcher
records exactly one Interaction — the `mkRecord` row, which depends only on
the token row and the raw request, never on the rule table, the expiry
clock, the method or the body (first conjunct); recording happens before
and independently of any rule lookup or rendering, so the recorded row is
unchanged under any change of the rule table (second conjunct); for a
token code that does not resolve, no Interaction is recorded (first
conjunct, `none` case of the map). -/
theorem C1_known_token_records_exactly_one_interaction
    (tokens : List CallbackToken) (rules rules2 : List PocRule)
    (code path : Str) (req : Req) (now : Int) (nowIso : Str) :
    ((handle_callback tokens rules code path req now nowIso).record
        = (resolveToken tokens code).map (fun t => mkRecord t code path req))
    ∧ (handle_callback tokens rules code path req now nowIso).record
        = (handle_callback tokens rules2 code path req now nowIso).record := by
  refine ⟨handle_callback_record tokens rules code path req now nowIso, ?_⟩
  rw [handle_callback_record, handle_callback_record]

/-- C2: the dispatcher's plain-text responses are exactly the four fixed
forms with their stated conditions: 404 `Not Found` iff the token code is
unknown; 404 `PoC Rule '{name}' not found` when the sub-path has the
`p/` prefix and no active rule of that name exists; 200 `OK` / 410
`Token Expired (but recorded)` exactly on the rule-less default path,
split by expiry alone; and conversely every plain-text response is one of
the four under exactly those conditions — in particular the 410 body only
ever arises on the rule-less default path of an expired token (rule hits
return the `Response` class, a different constructor). -/
theorem C2_response_fixed_forms (tokens : List CallbackToken) (rules : List PocRule)
    (code path : Str) (req : Req) (now : Int) (nowIso : Str) :
    (resolveToken tokens code = none →
      (handle_callback tokens rules code path req now nowIso).resp
        = .plainText (str "Not Found") 404)
    ∧ (∀ t, resolveToken tokens code = some t →
        ((str "p/").isPrefixOf path = true →
          activeRuleLookup rules t.id (ruleNameOf path) = none →
          (handle_callback tokens rules code path req now nowIso).resp
            = .plainText (str "PoC Rule \x27" ++ ruleNameOf path ++ str "\x27 not found") 404)
        ∧ ((str "p/").isPrefixOf path = false →
          (handle_callback tokens rules code path req now nowIso).resp
            = if isExpiredAt t now then .plainText (str "Token Expired (but recorded)") 410
              else .plainText (str "OK") 200))
    ∧ (∀ b s, (handle_callback tokens rules code path req now nowIso).resp
          = HttpResp.plainText b s →
        (b = str "Not Found" ∧ s = 404 ∧ resolveToken tokens code = none)
        ∨ (b = str "PoC Rule \x27" ++ ruleNameOf path ++ str "\x27 not found" ∧ s = 404
            ∧ (str "p/").isPrefixOf path = true
            ∧ ∃ t, resolveToken tokens code = some t
                ∧ activeRuleLookup rules t.id (ruleNameOf path) = none)
        ∨ (∃ t, resolveToken tokens code = some t ∧ (str "p/").isPrefixOf path = false
            ∧ ((b = str "OK" ∧ s = 200 ∧ isExpiredAt t now = false)
               ∨ (b = str "Token Expired (but recorded)" ∧ s = 410
                   ∧ isExpiredAt t now = true)))) := by
  refine ⟨?_, ?_, ?_⟩
  · intro h
    simp [handle_callback, h]
  · intro t h
    constructor
    · intro hp hrule
      simp [handle_callback, h, hp, hrule]
    · intro hp
      simp [handle_callback, h, hp]
      split <;> rfl
  · intro b s hresp
    cases h : resolveToken tokens code with
    | none =>
      simp [handle_callback, h] at hresp
      exact Or.inl ⟨hresp.1.symm, hresp.2.symm, rfl⟩
    | some t =>
      cases hp : (str "p/").isPrefixOf path with
      | true =>
        cases hr : activeRuleLookup rules t.id (ruleNameOf path) with
        | none =>
          simp [handle_callback, h, hp, hr] at hresp
          exact Or.inr (Or.inl ⟨hresp.1.symm, hresp.2.symm, rfl, t, rfl, hr⟩)
        | some rule =>
          simp [handle_callback, h, hp, hr] at hresp
          split at hresp <;> simp at hresp
      | false =>
        cases hex : isExpiredAt t now with
        | true =>
          simp [handle_callback, h, hp, hex] at hresp
          exact Or.inr (Or.inr ⟨t, rfl, rfl, Or.inr ⟨hresp.1.symm, hresp.2.symm, hex⟩⟩)
        | false =>
          simp [handle_callback, h, hp, hex] at hresp
          exact Or.inr (Or.inr ⟨t, rfl, rfl, Or.inl ⟨hresp.1.symm, hresp.2.symm, hex⟩⟩)

/- ===== token management (callback.py: create_token, delete_token) ===== -/

/-- The uniqueness-retry loop of `create_token`: `gen i` is the `i`-th
draw of `secrets.token_urlsafe(9)[:12]`; the Python `while` keeps drawing
as long as the drawn code exists, with no retry counter — the fuel is
only the depth to which the model unrolls that loop. -/
def findFresh (gen : Nat → Str) (existing : List Str) : Nat → Nat → Option Str
  | 0, _ => none
  | Nat.succ fuel, i =>
    if existing.contains (gen i) then findFresh gen existing fuel (i + 1)
    else some (gen i)

/-- `create_token(req, db, current_user)`: draw codes until one is unused
(no bound, no Conflict error path), then `expires_at = utcnow() +
timedelta(hours=h)` when `req.expires_hours` is truthy (any nonzero
value, negative included), else `None`. `none` stands for the loop still
running past the unrolled depth, not for a failure response. -/
def create_token (gen : Nat → Str) (existing : List Str) (fuel : Nat) (newId : Str)
    (name : Option Str) (expires_hours : Option Int) (now : Int) (user_id : Str) :
    Option CallbackToken :=
  match findFresh gen existing fuel 0 with
  | none => none
  | some code =>
    let expires_at : Option Int :=
      match expires_hours with
      | some h => if h ≠ 0 then some (now + h * 3600) else none
      | none => none
    some { id := newId, token := code, name := name, user_id := user_id,
           created_at := now, expires_at := expires_at, is_active := 1 }

/-- `delete_token(token_id, db, current_user)`: 404 when the id is not one
of the caller's tokens; otherwise delete the `CallbackRecord` rows of the
token and the token row itself. No statement touches `poc_rules`, and the
models declare no foreign keys or cascades, so the rules list is returned
unchanged. -/
def delete_token (tokens : List CallbackToken) (records : List StoredRecord)
    (rules : List PocRule) (token_id user_id : Str) :
    Except Nat (List CallbackToken × List StoredRecord × List PocRule) :=
  match tokens.find? (fun t => t.id == token_id && t.user_id == user_id) with
  | none => .error 404
  | some _ =>
    let records' := records.filter (fun r => !(r.data.token_id == token_id))
    let tokens' := tokens.filter (fun t => !(t.id == token_id))
    .ok (tokens', records', rules)

/- ===== PoC rule management (callback.py) ===== -/

/-- Body of `POST /tokens/{token_id}/rules`. -/
structure PocRuleCreate where
  name : Str
  description : Option Str
  status_code : Nat
  content_type : Str
  response_body : Option Str
  response_headers : Option (List (Str × Str))
  redirect_url : Option Str
  delay_ms : Nat
  enable_variables : Bool
deriving DecidableEq, Repr

/-- Body of `PATCH /tokens/{token_id}/rules/{rule_id}`; `none` = field not
present in the request (`exclude_unset`). -/
structure PocRuleUpdate where
  name : Option Str
  description : Option Str
  status_code : Option Nat
  content_type : Option Str
  response_body : Option Str
  response_headers : Option (List (Str × Str))
  redirect_url : Option Str
  delay_ms : Option Nat
  enable_variables : Option Bool
  is_active : Option Bool
deriving DecidableEq, Repr

/-- `create_poc_rule`: 404 for a token the caller does not own, 400
`Rule name already exists` when the token already has a rule of that
name, else insert the new rule (active, hit_count 0). -/
def create_poc_rule (tokens : List CallbackToken) (rules : List PocRule)
    (token_id user_id : Str) (req : PocRuleCreate) (newId : Str) :
    Except Nat (List PocRule × PocRule) :=
  match tokens.find? (fun t => t.id == token_id && t.user_id == user_id) with
  | none => .error 404
  | some _ =>
    match rules.find? (fun r => r.token_id == token_id && r.name == req.name) with
    | some _ => .error 400
    | none =>
      let rule : PocRule :=
        { id := newId, token_id := token_id, name := req.name,
          description := req.description, status_code := req.status_code,
          content_type := req.content_type, response_body := req.response_body,
          response_headers := some (req.response_headers.getD []),
          redirect_url := req.redirect_url, delay_ms := req.delay_ms,
          enable_variables := if req.enable_variables then 1 else 0,
          is_active := 1, hit_count := 0 }
      .ok (rules ++ [rule], rule)

/-- The `setattr` loop of `update_poc_rule` over the fields present in the
request (with the 0/1 coercion of the two flags). -/
def applyUpdate (rule : PocRule) (req : PocRuleUpdate) : PocRule :=
  { rule with
    name := req.name.getD rule.name,
    description := match req.description with
      | some d => some d
      | none => rule.description,
    status_code := req.status_code.getD rule.status_code,
    content_type := req.content_type.getD rule.content_type,
    response_body := match req.response_body with
      | some b => some b
      | none => rule.response_body,
    response_headers := match req.response_headers with
      | some hs => some hs
      | none => rule.response_headers,
    redirect_url := match req.redirect_url with
      | some u => some u
      | none => rule.redirect_url,
    delay_ms := req.delay_ms.getD rule.delay_ms,
    enable_variables := match req.enable_variables with
      | some b => if b then 1 else 0
      | none => rule.enable_variables,
    is_active := match req.is_active with
      | some b => if b then 1 else 0
      | none => rule.is_active }

/-- `update_poc_rule`: 404 for a foreign token or unknown rule, else apply
the given fields to the rule — with no check of the new name against the
token's other rules. -/
def update_poc_rule (tokens : List CallbackToken) (rules : List PocRule)
    (token_id rule_id user_id : Str) (req : PocRuleUpdate) :
    Except Nat (List PocRule × PocRule) :=
  match tokens.find? (fun t => t.id == token_id && t.user_id == user_id) with
  | none => .error 404
  | some _ =>
    match rules.find? (fun r => r.id == rule_id && r.token_id == token_id) with
    | none => .error 404
    | some rule =>
      let rule' := applyUpdate rule req
      .ok (rules.map (fun r => if r.id == rule.id then rule' else r), rule')

/- ===== poll_records (callback.py) ===== -/

/-- The `ORDER BY timestamp DESC` relation: newest first (ties in either
order, as in SQL). -/
def newestFirst (a b : StoredRecord) : Prop := b.timestamp ≤ a.timestamp

instance : DecidableRel newestFirst :=
  fun a b => inferInstanceAs (Decidable (b.timestamp ≤ a.timestamp))

instance : IsTotal StoredRecord newestFirst :=
  ⟨fun a b => le_total b.timestamp a.timestamp⟩

instance : IsTrans StoredRecord newestFirst :=
  ⟨fun _ _ _ hab hbc => le_trans hbc hab⟩

/-- `poll_records(token_id, since, db, current_user)`: 404 for a foreign
token; otherwise the token's records, filtered to `timestamp > since`
when `since` parses (after the `Z` → `+00:00` rewrite), with the parse
error swallowed (`except: pass`), newest first, at most 50. `parseIso`
stands for `datetime.fromisoformat`. -/
def poll_records (tokens : List CallbackToken) (records : List StoredRecord)
    (token_id user_id : Str) (since : Option Str) (parseIso : Str → Option Int) :
    Except Nat (List StoredRecord) :=
  match tokens.find? (fun t => t.id == token_id && t.user_id == user_id) with
  | none => .error 404
  | some _ =>
    let query := records.filter (fun r => r.data.token_id == token_id)
    let query2 :=
      match since with
      | none => query
      | some s =>
        match parseIso (replaceAllL (str "Z") (str "+00:00") s) with
        | some since_time => query.filter (fun r => since_time < r.timestamp)
        | none => query
    .ok ((query2.insertionSort newestFirst).take 50)

/- ===== shared concrete fixtures ===== -/

/-- A never-expiring active token of user `u1`. -/
def tokT1 : CallbackToken :=
  { id := str "t1", token := str "abc", name := none, user_id := str "u1",
    created_at := 0, expires_at := none, is_active := 1 }

/-- An active rule `a` of token `t1`. -/
def ruleA : PocRule :=
  { id := str "r1", token_id := str "t1", name := str "a", description := none,
    status_code := 200, content_type := str "text/html", response_body := none,
    response_headers := none, redirect_url := none, delay_ms := 0,
    enable_variables := 0, is_active := 1, hit_count := 0 }

/-- A second active rule `b` of token `t1`. -/
def ruleB : PocRule := { ruleA with id := str "r2", name := str "b" }

/-- The update request that renames a rule to `a` and touches nothing else. -/
def renameToA : PocRuleUpdate :=
  { name := some (str "a"), description := none, status_code := none,
    content_type := none, response_body := none, response_headers := none,
    redirect_url := none, delay_ms := none, enable_variables := none,
    is_active := none }

/- ===== C3: what deleting a token deletes ===== -/

/-- C3 counterexample: deleting token `t1` (which owns rule `ruleA`)
succeeds, removes the token and its records, but returns the rule table
unchanged — the PoCRule owned by the deleted token remains in the store,
contradicting the claimed cascade over both relations. -/
theorem C3_counterexample :
    delete_token [tokT1] [] [ruleA] (str "t1") (str "u1") = .ok ([], [], [ruleA])
    ∧ ruleA.token_id = tokT1.id := ⟨rfl, rfl⟩

/-- C3 as amended: a successful `delete_token` removes every Interaction of
the token and the token row itself, but leaves the rule table untouched,
so PoCRules of the deleted token survive as orphans. -/
theorem C3_delete_token_cascades_records_only
    (tokens : List CallbackToken) (records : List StoredRecord)
    (rules : List PocRule) (tid uid : Str) (ts : List CallbackToken)
    (rs : List StoredRecord) (ps : List PocRule)
    (h : delete_token tokens records rules tid uid = .ok (ts, rs, ps)) :
    (∀ r ∈ rs, ¬ r.data.token_id = tid) ∧ (∀ t ∈ ts, ¬ t.id = tid) ∧ ps = rules := by
  unfold delete_token at h
  cases hf : tokens.find? (fun t => t.id == tid && t.user_id == uid) with
  | none => rw [hf] at h; exact absurd h (by simp)
  | some t =>
    rw [hf] at h
    injection h with h'
    injection h' with hts h'
    injection h' with hrs hps
    subst hts hrs hps
    refine ⟨?_, ?_, rfl⟩
    · intro r hr
      have := List.of_mem_filter hr
      simpa using this
    · intro t ht
      have := List.of_mem_filter ht
      simpa using this

/-- C3 witness: the amended theorem applied to the concrete one-token,
one-rule store. -/
theorem C3_witness :
    (∀ r ∈ ([] : List StoredRecord), ¬ r.data.token_id = str "t1")
    ∧ (∀ t ∈ ([] : List CallbackToken), ¬ t.id = str "t1")
    ∧ [ruleA] = [ruleA] :=
  C3_delete_token_cascades_records_only [tokT1] [] [ruleA] (str "t1") (str "u1")
    [] [] [ruleA] rfl

/- ===== C6: rule-name uniqueness ===== -/

/-- Per-token uniqueness of rule names across a rule table. -/
def rulesNameUnique (rules : List PocRule) : Prop :=
  List.Pairwise (fun r s => r.token_id = s.token_id → r.name ≠ s.name) rules

/-- C6 counterexample: token `t1` has rules `a` and `b`; renaming `b` to
`a` through `update_poc_rule` succeeds and yields two distinct rules of
the same token both named `a` — update does not preserve the uniqueness
invariant. -/
theorem C6_counterexample :
    update_poc_rule [tokT1] [ruleA, ruleB] (str "t1") (str "r2") (str "u1") renameToA
      = .ok ([ruleA, { ruleB with name := str "a" }], { ruleB with name := str "a" })
    ∧ ruleA.token_id = ({ ruleB with name := str "a" } : PocRule).token_id
    ∧ ruleA.name = ({ ruleB with name := str "a" } : PocRule).name
    ∧ ruleA.id ≠ ({ ruleB with name := str "a" } : PocRule).id := by
  refine ⟨rfl, rfl, rfl, by decide⟩

/-- C6 as amended: creation rejects a duplicate name for the token with the
Conflict error (HTTP 400, `Rule name already exists`), and a successful
creation preserves per-token name uniqueness; the update path performs no
such check (see the counterexample), so uniqueness is enforced at creation
only. -/
theorem C6_rule_name_unique_at_creation_only
    (tokens : List CallbackToken) (rules : List PocRule)
    (tid uid : Str) (req : PocRuleCreate) (nid : Str) :
    (∀ t, tokens.find? (fun t => t.id == tid && t.user_id == uid) = some t →
      (∃ r ∈ rules, r.token_id = tid ∧ r.name = req.name) →
      create_poc_rule tokens rules tid uid req nid = .error 400)
    ∧ (∀ rs rule, create_poc_rule tokens rules tid uid req nid = .ok (rs, rule) →
        rulesNameUnique rules → rulesNameUnique rs) := by
  constructor
  · rintro t ht ⟨r, hr, hrt, hrn⟩
    unfold create_poc_rule
    rw [ht]
    cases hf : rules.find? (fun r => r.token_id == tid && r.name == req.name) with
    | some _ => rfl
    | none =>
      exfalso
      have := List.find?_eq_none.mp hf r hr
      simp [hrt, hrn] at this
  · intro rs rule h hU
    unfold create_poc_rule at h
    cases hf : tokens.find? (fun t => t.id == tid && t.user_id == uid) with
    | none => rw [hf] at h; exact absurd h (by simp)
    | some t =>
      rw [hf] at h
      cases hg : rules.find? (fun r => r.token_id == tid && r.name == req.name) with
      | some _ => rw [hg] at h; exact absurd h (by simp)
      | none =>
        rw [hg] at h
        injection h with h'
        injection h' with hrs hrule
        subst hrs
        unfold rulesNameUnique
        rw [List.pairwise_append]
        refine ⟨hU, List.pairwise_singleton _ _, ?_⟩
        intro a ha b hb
        simp only [List.mem_singleton] at hb
        subst hb
        intro htid
        have hnone := List.find?_eq_none.mp hg a ha
        simp only [Bool.and_eq_true, beq_iff_eq, not_and] at hnone
        intro hname
        exact hnone (by simpa using htid) (by simpa using hname)

/- ===== C7: token creation ===== -/

/-- The retry loop finds a code whenever any draw within the unrolled
depth is unused: the loop never gives up at a fixed budget. -/
lemma findFresh_succeeds (gen : Nat → Str) (existing : List Str) :
    ∀ (fuel i d : Nat), d < fuel → existing.contains (gen (i + d)) = false →
      ∃ c, findFresh gen existing fuel i = some c := by
  intro fuel
  induction fuel with
  | zero => intro i d hd hc; exact absurd hd (Nat.not_lt_zero d)
  | succ n ih =>
    intro i d hd hc
    by_cases h0 : existing.contains (gen i) = true
    · cases d with
      | zero => rw [Nat.add_zero] at hc; rw [hc] at h0; cases h0
      | succ e =>
        have he : existing.contains (gen ((i + 1) + e)) = false := by
          have harith : i + (e + 1) = (i + 1) + e := by omega
          rw [← harith]; exact hc
        obtain ⟨c, hcc⟩ := ih (i + 1) e (by omega) he
        refine ⟨c, ?_⟩
        show (if existing.contains (gen i) = true then findFresh gen existing n (i + 1)
          else some (gen i)) = some c
        rw [if_pos h0]
        exact hcc
    · refine ⟨gen i, ?_⟩
      show (if existing.contains (gen i) = true then findFresh gen existing n (i + 1)
        else some (gen i)) = some (gen i)
      rw [if_neg h0]

/-- C7 as amended: `create_token` keeps drawing codes with no retry budget
and no Conflict failure path — it succeeds as soon as any draw is unused,
however deep in the sequence; on success `expires_at` is `None` exactly
when `ttlHours` is omitted or zero, and `now + ttl` for every other value,
negative values included (which yield an already-past expiry rather than
`None`). -/
theorem C7_create_token_unbounded_retry_and_expiry
    (gen : Nat → Str) (existing : List Str) (fuel : Nat)
    (nid : Str) (name : Option Str) (eh : Option Int) (now : Int) (uid : Str) (j : Nat)
    (hj : j < fuel) (hfresh : existing.contains (gen j) = false) :
    ∃ t, create_token gen existing fuel nid name eh now uid = some t
      ∧ ((eh = none ∨ eh = some 0) → t.expires_at = none)
      ∧ (∀ h, eh = some h → h ≠ 0 → t.expires_at = some (now + h * 3600)) := by
  obtain ⟨c, hc⟩ := findFresh_succeeds gen existing fuel 0 j hj (by simpa using hfresh)
  refine ⟨⟨nid, c, name, uid, now,
    (match eh with
      | some h => if h ≠ 0 then some (now + h * 3600) else none
      | none => none), 1⟩, ?_, ?_, ?_⟩
  · unfold create_token
    rw [hc]
  · rintro (rfl | rfl) <;> simp
  · rintro h rfl hne
    simp [hne]

/-- C7 witness: the amended theorem at a fresh first draw with ttl 24. -/
theorem C7_witness :
    ∃ t, create_token (fun _ => str "abc") [] 1 (str "id") none (some 24) 0 (str "u")
        = some t
      ∧ (((some 24 : Option Int) = none ∨ (some 24 : Option Int) = some 0) →
          t.expires_at = none)
      ∧ (∀ h, (some 24 : Option Int) = some h → h ≠ 0 →
          t.expires_at = some (0 + h * 3600)) :=
  C7_create_token_unbounded_retry_and_expiry (fun _ => str "abc") [] 1 (str "id")
    none (some 24) 0 (str "u") 0 (by decide) rfl

/-- C7 counterexample: with `ttlHours = -1` creation succeeds and sets
`expires_at = now - 3600`, not `null` — the claim's `expires_at = null
otherwise` (for every non-positive ttl) is false on the code. -/
theorem C7_counterexample :
    (create_token (fun _ => str "abc") [] 1 (str "id") none (some (-1)) 0
        (str "u")).map (fun t => t.expires_at) = some (some (-3600))
    ∧ (some (-3600) : Option Int) ≠ none := by
  constructor
  · decide
  · simp

/- ===== C10: poll with an unparseable `since` ===== -/

/-- C10: when `since` does not parse as an ISO-8601 timestamp (after the
`Z` rewrite), `poll_records` raises nothing: it returns exactly what the
same call without `since` returns, and every successful page is at most
50 records in newest-first order. -/
theorem C10_poll_invalid_since_filter_dropped
    (tokens : List CallbackToken) (records : List StoredRecord)
    (tid uid s : Str) (parseIso : Str → Option Int)
    (hbad : parseIso (replaceAllL (str "Z") (str "+00:00") s) = none) :
    poll_records tokens records tid uid (some s) parseIso
      = poll_records tokens records tid uid none parseIso
    ∧ (∀ l, poll_records tokens records tid uid (some s) parseIso = .ok l →
        l.length ≤ 50 ∧ l.Sorted newestFirst) := by
  constructor
  · unfold poll_records
    cases tokens.find? (fun t => t.id == tid && t.user_id == uid) with
    | none => rfl
    | some t => simp [hbad]
  · intro l hl
    unfold poll_records at hl
    cases hf : tokens.find? (fun t => t.id == tid && t.user_id == uid) with
    | none => rw [hf] at hl; exact absurd hl (by simp)
    | some t =>
      rw [hf] at hl
      simp only [hbad] at hl
      injection hl with hl'
      subst hl'
      exact ⟨List.length_take_le _ _,
        List.Pairwise.sublist (List.take_sublist _ _) (List.sorted_insertionSort _ _)⟩

/-- C10 witness: the theorem at a concrete store and a `since` string on
which the parser fails. -/
theorem C10_witness :
    (poll_records [tokT1] [] (str "t1") (str "u1") (some (str "garbage"))
        (fun _ => none)
      = poll_records [tokT1] [] (str "t1") (str "u1") none (fun _ => none))
    ∧ (∀ l, poll_records [tokT1] [] (str "t1") (str "u1") (some (str "garbage"))
          (fun _ => none) = .ok l →
        l.length ≤ 50 ∧ l.Sorted newestFirst) :=
  C10_poll_invalid_since_filter_dropped [tokT1] [] (str "t1") (str "u1")
    (str "garbage") (fun _ => none) rfl

/- ===== C4: rule-response header merge ===== -/

lemma find?_cons_true {α : Type} (p : α → Bool) (a : α) (l : List α)
    (h : p a = true) : (a :: l).find? p = some a := by
  rw [List.find?_cons, h]

lemma find?_cons_false {α : Type} (p : α → Bool) (a : α) (l : List α)
    (h : p a = false) : (a :: l).find? p = l.find? p := by
  rw [List.find?_cons, h]

lemma find_map_subst (m : List (Str × Str)) (k v q : Str) (h : q ≠ k) :
    (m.map (fun p => if p.1 == k then (p.1, v) else p)).find? (fun p => p.1 == q)
      = m.find? (fun p => p.1 == q) := by
  induction m with
  | nil => rfl
  | cons p t ih =>
    rw [List.map_cons]
    by_cases hp : (p.1 == k) = true
    · have hk : p.1 = k := by simpa using hp
      have hq : (p.1 == q) = false := by
        simp only [beq_eq_false_iff_ne, ne_eq]
        intro e
        exact h (e.symm.trans hk)
      rw [if_pos hp,
        find?_cons_false (fun p => p.1 == q) (p.1, v) _ hq,
        find?_cons_false (fun p => p.1 == q) p _ hq]
      exact ih
    · rw [Bool.not_eq_true] at hp
      rw [if_neg (by rw [hp]; exact Bool.false_ne_true)]
      by_cases hq : (p.1 == q) = true
      · rw [find?_cons_true (fun p => p.1 == q) p _ hq,
          find?_cons_true (fun p => p.1 == q) p _ hq]
      · rw [Bool.not_eq_true] at hq
        rw [find?_cons_false (fun p => p.1 == q) p _ hq,
          find?_cons_false (fun p => p.1 == q) p _ hq]
        exact ih

lemma find_append_kv (m : List (Str × Str)) (k v q : Str) (h : q ≠ k) :
    (m ++ [(k, v)]).find? (fun p => p.1 == q) = m.find? (fun p => p.1 == q) := by
  induction m with
  | nil =>
    rw [List.nil_append,
      find?_cons_false (fun p => p.1 == q) (k, v) _
        (by simp only [beq_eq_false_iff_ne, ne_eq]; exact fun e => h e.symm)]
  | cons p t ih =>
    rw [List.cons_append]
    by_cases hq : (p.1 == q) = true
    · rw [find?_cons_true (fun p => p.1 == q) p _ hq,
        find?_cons_true (fun p => p.1 == q) p _ hq]
    · rw [Bool.not_eq_true] at hq
      rw [find?_cons_false (fun p => p.1 == q) p _ hq,
        find?_cons_false (fun p => p.1 == q) p _ hq]
      exact ih

/-- A key other than the one written by `dictSet` reads as before. -/
lemma lookupStr_dictSet_other (m : List (Str × Str)) (k v q : Str) (h : q ≠ k) :
    lookupStr (dictSet m k v) q = lookupStr m q := by
  unfold dictSet
  by_cases hany : m.any (fun p => p.1 == k) = true
  · rw [if_pos hany]
    unfold lookupStr
    rw [find_map_subst m k v q h]
  · rw [if_neg hany]
    unfold lookupStr
    rw [find_append_kv m k v q h]

/-- The key written by `dictSet` reads back the written value. -/
lemma lookupStr_dictSet_self (m : List (Str × Str)) (k v : Str) :
    lookupStr (dictSet m k v) k = some v := by
  unfold dictSet
  by_cases hany : m.any (fun p => p.1 == k) = true
  · rw [if_pos hany]
    induction m with
    | nil => simp at hany
    | cons p t ih =>
      rw [List.map_cons]
      by_cases hp : (p.1 == k) = true
      · rw [if_pos hp]
        unfold lookupStr
        rw [find?_cons_true (fun p => p.1 == k) (p.1, v) _ hp]
        rfl
      · rw [Bool.not_eq_true] at hp
        rw [if_neg (by rw [hp]; exact Bool.false_ne_true)]
        unfold lookupStr
        rw [find?_cons_false (fun p => p.1 == k) p _ hp]
        have hany' : t.any (fun p => p.1 == k) = true := by
          rw [List.any_cons, hp, Bool.false_or] at hany
          exact hany
        exact ih hany'
  · rw [if_neg hany]
    rw [Bool.not_eq_true, List.any_eq_false] at hany
    induction m with
    | nil =>
      unfold lookupStr
      rw [List.nil_append, find?_cons_true (fun p => p.1 == k) (k, v) _ (by simp)]
      rfl
    | cons p t ih =>
      have hp : (p.1 == k) = false := by
        have := hany p (List.mem_cons_self p t)
        rw [Bool.not_eq_true] at this
        exact this
      rw [List.cons_append]
      unfold lookupStr
      rw [find?_cons_false (fun p => p.1 == k) p _ hp]
      exact ih (fun x hx => hany x (List.mem_cons_of_mem p hx))

/-- C4 as amended: on a matched rule with no configured redirect, the
response headers are the rule's custom header map with the `Content-Type`
entry overwritten by the rule's `content_type` field — the field wins over
a same-named custom header, and every other custom header is passed
through unchanged. -/
theorem C4_rule_headers_content_type_field_wins
    (tokens : List CallbackToken) (rules : List PocRule)
    (code path : Str) (req : Req) (now : Int) (nowIso : Str)
    (t : CallbackToken) (rule : PocRule)
    (ht : resolveToken tokens code = some t)
    (hp : (str "p/").isPrefixOf path = true)
    (hr : activeRuleLookup rules t.id (ruleNameOf path) = some rule)
    (hredir : rule.redirect_url.getD [] = []) :
    ∃ b hdrs, (handle_callback tokens rules code path req now nowIso).resp
        = HttpResp.response b rule.status_code hdrs
      ∧ lookupStr hdrs (str "Content-Type") = some rule.content_type
      ∧ ∀ q, q ≠ str "Content-Type" →
          lookupStr hdrs q = lookupStr (rule.response_headers.getD []) q := by
  refine ⟨(if rule.enable_variables ≠ 0 then
      replace_variables (rule.response_body.getD []) req
        (get_client_ip req.headers req.client_host) code nowIso
    else rule.response_body.getD []),
    dictSet (rule.response_headers.getD []) (str "Content-Type") rule.content_type,
    ?_, ?_, ?_⟩
  · simp [handle_callback, ht, hp, hr, hredir]
  · exact lookupStr_dictSet_self _ _ _
  · intro q hq
    exact lookupStr_dictSet_other _ _ _ _ hq

/-- A minimal inbound GET with no headers, query or body. -/
def req0 : Req :=
  { method := str "GET", url_path := str "/c/abc/p/a", url_query := [],
    query_params := [], headers := [], body := none,
    client_host := some (str "9.9.9.9") }

/-- Rule `a` with an unrelated custom header. -/
def ruleHdr : PocRule :=
  { ruleA with response_headers := some [(str "X-Extra", str "1")] }

/-- Rule `a` whose custom header map itself carries a `Content-Type`. -/
def ruleCT : PocRule :=
  { ruleA with
    response_headers := some [(str "Content-Type", str "application/json")] }

/-- C4 counterexample: `ruleCT` sets `Content-Type: application/json` in
its extra header map while its `content_type` field is `text/html`; the
rendered response carries `text/html` — the `content_type` field
overwrites the custom entry, the opposite of the claimed precedence. -/
theorem C4_counterexample :
    (match (handle_callback [tokT1] [ruleCT] (str "abc") (str "p/a") req0 0
        (str "iso")).resp with
      | HttpResp.response _ _ hdrs => lookupStr hdrs (str "Content-Type")
      | _ => none) = some (str "text/html")
    ∧ lookupStr (ruleCT.response_headers.getD []) (str "Content-Type")
        = some (str "application/json")
    ∧ str "text/html" ≠ str "application/json" := by
  refine ⟨rfl, rfl, by decide⟩

/-- C4 witness: the amended theorem at a concrete rule with one custom
header and no redirect. -/
theorem C4_witness :
    ∃ b hdrs, (handle_callback [tokT1] [ruleHdr] (str "abc") (str "p/a") req0 0
        (str "iso")).resp
        = HttpResp.response b ruleHdr.status_code hdrs
      ∧ lookupStr hdrs (str "Content-Type") = some ruleHdr.content_type
      ∧ ∀ q, q ≠ str "Content-Type" →
          lookupStr hdrs q = lookupStr (ruleHdr.response_headers.getD []) q :=
  C4_rule_headers_content_type_field_wins [tokT1] [ruleHdr] (str "abc") (str "p/a")
    req0 0 (str "iso") tokT1 ruleHdr rfl rfl rfl rfl

/- ===== C8: exfiltration classification ===== -/

/-- C8 as amended: a recorded request is flagged `is_data_exfil` exactly
when `_exfil=1`; `exfil_type` is the `_type` parameter when flagged and
absent otherwise; `exfil_data` resolves by emptiness-tested priority, not
mere presence: a non-empty `_data` wins; with `_data` absent or empty, the
first present fallback parameter (`data, d, c, cookie, file, cmd, result`,
in that order) supplies its value when non-empty; when the value so far is
still empty or absent, a 2000-character prefix of the body is used when
the body is non-empty; otherwise the empty/absent leftover value is
recorded as is. -/

theorem C8_exfiltration_resolution (tokens : List CallbackToken) (rules : List PocRule)
    (code path : Str) (req : Req) (now : Int) (nowIso : Str) (r : CallbackRecord)
    (h : (handle_callback tokens rules code path req now nowIso).record = some r) :
    (r.is_data_exfil = 1 ↔ lookupStr req.query_params (str "_exfil") = some (str "1"))
    ∧ (lookupStr req.query_params (str "_exfil") = some (str "1") →
        r.exfil_type = lookupStr req.query_params (str "_type"))
    ∧ (¬ lookupStr req.query_params (str "_exfil") = some (str "1") →
        r.exfil_type = none ∧ r.exfil_data = none)
    ∧ (lookupStr req.query_params (str "_exfil") = some (str "1") →
        (∀ v, lookupStr req.query_params (str "_data") = some v → v ≠ [] →
          r.exfil_data = some v)
        ∧ ((lookupStr req.query_params (str "_data")).getD [] = [] →
          (∀ k, fallbackKeys.find? (fun k =>
                (lookupStr req.query_params k).isSome) = some k →
            ((lookupStr req.query_params k).getD [] ≠ [] →
              r.exfil_data = lookupStr req.query_params k)
            ∧ ((lookupStr req.query_params k).getD [] = [] →
              (∀ b, req.body = some b → b ≠ [] → r.exfil_data = some (b.take 2000))
              ∧ (bodyTruthy req.body = false →
                  r.exfil_data = lookupStr req.query_params k)))
          ∧ (fallbackKeys.find? (fun k =>
                (lookupStr req.query_params k).isSome) = none →
            (∀ b, req.body = some b → b ≠ [] → r.exfil_data = some (b.take 2000))
            ∧ (bodyTruthy req.body = false →
                r.exfil_data = lookupStr req.query_params (str "_data"))))) := by
  rw [handle_callback_record] at h
  cases ht : resolveToken tokens code with
  | none => rw [ht] at h; exact absurd h (by simp)
  | some t =>
    rw [ht, Option.map_some'] at h
    injection h with h
    subst h
    by_cases hflag : lookupStr req.query_params (str "_exfil") = some (str "1")
    · have hflagb : (lookupStr req.query_params (str "_exfil") == some (str "1")) = true := by
        simp [hflag]
      refine ⟨by simp [mkRecord, hflagb, hflag], ?_, ?_, ?_⟩
      · intro _
        simp [mkRecord, hflagb]
      · intro hc
        exact absurd hflag hc
      · intro _
        constructor
        · intro v hv hvne
          have : optFalsy (some v) = false := by
            simp [optFalsy, hvne]
          simp [mkRecord, hflagb, hv, this]
        · intro hd
          have hfalsy : optFalsy (lookupStr req.query_params (str "_data")) = true := by
            cases hdd : lookupStr req.query_params (str "_data") with
            | none => rfl
            | some s =>
              rw [hdd] at hd
              simp at hd
              simp [optFalsy, hd]
          constructor
          · intro k hk
            have hkisS : (lookupStr req.query_params k).isSome = true := by
              have := List.find?_some hk
              simpa using this
            obtain ⟨kv, hkv⟩ := Option.isSome_iff_exists.mp hkisS
            constructor
            · intro hkne
              have : optFalsy (lookupStr req.query_params k) = false := by
                rw [hkv]
                rw [hkv] at hkne
                simp only [Option.getD_some] at hkne
                simp [optFalsy, hkne]
              simp [mkRecord, hflagb, hk, hfalsy, this]
            · intro hkemp
              have hkv0 : kv = [] := by
                rw [hkv] at hkemp
                simpa using hkemp
              have hkfalsy : optFalsy (lookupStr req.query_params k) = true := by
                rw [hkv, hkv0]
                rfl
              constructor
              · intro b hb hbne
                have hbt : bodyTruthy (some b) = true := by
                  simp [bodyTruthy, hbne]
                simp [mkRecord, hflagb, hk, hfalsy, hkfalsy, hb, hbt]
              · intro hbf
                simp [mkRecord, hflagb, hk, hfalsy, hkfalsy, hbf, hkv]
          · intro hnone
            constructor
            · intro b hb hbne
              have hbt : bodyTruthy (some b) = true := by
                simp [bodyTruthy, hbne]
              simp [mkRecord, hflagb, hnone, hfalsy, hb, hbt]
            · intro hbf
              simp [mkRecord, hflagb, hnone, hfalsy, hbf, hflag]
    · have hflagb : (lookupStr req.query_params (str "_exfil") == some (str "1")) = false := by
        simpa using hflag
      refine ⟨by simp [mkRecord, hflagb, hflag], ?_, ?_, ?_⟩
      · intro hc
        exact absurd hc hflag
      · intro _
        constructor <;> simp [mkRecord, hflagb]
      · intro hc
        exact absurd hc hflag

/-- Scenario-D request: `?_exfil=1&_type=cookie&_data=YWJj`. -/
def reqD : Req :=
  { method := str "GET", url_path := str "/c/abc",
    url_query := str "_exfil=1&_type=cookie&_data=YWJj",
    query_params := [(str "_exfil", str "1"), (str "_type", str "cookie"),
      (str "_data", str "YWJj")],
    headers := [], body := none, client_host := some (str "9.9.9.9") }

/-- C8 witness: the theorem at the Scenario-D request against the concrete
store. -/
theorem C8_witness :
    ((mkRecord tokT1 (str "abc") [] reqD).is_data_exfil = 1
        ↔ lookupStr reqD.query_params (str "_exfil") = some (str "1"))
    ∧ (lookupStr reqD.query_params (str "_exfil") = some (str "1") →
        (mkRecord tokT1 (str "abc") [] reqD).exfil_type
          = lookupStr reqD.query_params (str "_type"))
    ∧ (¬ lookupStr reqD.query_params (str "_exfil") = some (str "1") →
        (mkRecord tokT1 (str "abc") [] reqD).exfil_type = none
        ∧ (mkRecord tokT1 (str "abc") [] reqD).exfil_data = none)
    ∧ (lookupStr reqD.query_params (str "_exfil") = some (str "1") →
        (∀ v, lookupStr reqD.query_params (str "_data") = some v → v ≠ [] →
          (mkRecord tokT1 (str "abc") [] reqD).exfil_data = some v)
        ∧ ((lookupStr reqD.query_params (str "_data")).getD [] = [] →
          (∀ k, fallbackKeys.find? (fun k =>
                (lookupStr reqD.query_params k).isSome) = some k →
            ((lookupStr reqD.query_params k).getD [] ≠ [] →
              (mkRecord tokT1 (str "abc") [] reqD).exfil_data
                = lookupStr reqD.query_params k)
            ∧ ((lookupStr reqD.query_params k).getD [] = [] →
              (∀ b, reqD.body = some b → b ≠ [] →
                (mkRecord tokT1 (str "abc") [] reqD).exfil_data
                  = some (b.take 2000))
              ∧ (bodyTruthy reqD.body = false →
                  (mkRecord tokT1 (str "abc") [] reqD).exfil_data
                    = lookupStr reqD.query_params k)))
          ∧ (fallbackKeys.find? (fun k =>
                (lookupStr reqD.query_params k).isSome) = none →
            (∀ b, reqD.body = some b → b ≠ [] →
              (mkRecord tokT1 (str "abc") [] reqD).exfil_data
                = some (b.take 2000))
            ∧ (bodyTruthy reqD.body = false →
                (mkRecord tokT1 (str "abc") [] reqD).exfil_data
                  = lookupStr reqD.query_params (str "_data"))))) :=
  C8_exfiltration_resolution [tokT1] [] (str "abc") [] reqD 0 (str "iso")
    (mkRecord tokT1 (str "abc") [] reqD) rfl

/-- Request with `_exfil=1`, an explicitly present but empty `_data`, and a
non-empty `cookie` fallback parameter. -/
def reqE : Req :=
  { method := str "GET", url_path := str "/c/abc",
    url_query := str "_exfil=1&_data=&cookie=abc",
    query_params := [(str "_exfil", str "1"), (str "_data", []),
      (str "cookie", str "abc")],
    headers := [], body := none, client_host := some (str "9.9.9.9") }

/-- C8 counterexample: `_data` is present (empty), so under the claimed
presence-based priority `exfil_data` would be the explicit `_data` value
`""`; the code instead records the fallback `cookie` value `abc` — the
priority is tested by emptiness, not presence. -/
theorem C8_counterexample :
    ((handle_callback [tokT1] [] (str "abc") [] reqE 0 (str "iso")).record.map
      (fun r => r.exfil_data)) = some (some (str "abc"))
    ∧ lookupStr reqE.query_params (str "_data") = some []
    ∧ some (some (str "abc")) ≠ some (some ([] : Str)) := by
  refine ⟨rfl, rfl, by decide⟩

/- ===== string-replacement lemmas (for C5 / C9) ===== -/

lemma raf_nil (pat v : Str) : ∀ f, replaceAllFuel f pat v [] = [] := by
  intro f
  cases f with
  | zero => rfl
  | succ n =>
    show (if pat ≠ [] ∧ pat.isPrefixOf [] then
        v ++ replaceAllFuel n pat v (List.drop pat.length [])
      else match ([] : Str) with
        | [] => []
        | c :: rest => c :: replaceAllFuel n pat v rest) = []
    rw [if_neg]
    rintro ⟨hne, hpre⟩
    cases hp : pat with
    | nil => exact hne hp
    | cons a l => rw [hp] at hpre; simp [List.isPrefixOf] at hpre

lemma raf_congr (pat v : Str) : ∀ (f1 : Nat) (s : Str) (f2 : Nat),
    s.length ≤ f1 → s.length ≤ f2 →
    replaceAllFuel f1 pat v s = replaceAllFuel f2 pat v s := by
  intro f1
  induction f1 with
  | zero =>
    intro s f2 h1 h2
    have hs : s = [] := List.length_eq_zero.mp (Nat.le_zero.mp h1)
    subst hs
    rw [raf_nil, raf_nil]
  | succ n ih =>
    intro s f2 h1 h2
    cases s with
    | nil => rw [raf_nil, raf_nil]
    | cons c rest =>
      cases f2 with
      | zero => simp at h2
      | succ m =>
        show (if pat ≠ [] ∧ pat.isPrefixOf (c :: rest) then
            v ++ replaceAllFuel n pat v ((c :: rest).drop pat.length)
          else c :: replaceAllFuel n pat v rest)
          = (if pat ≠ [] ∧ pat.isPrefixOf (c :: rest) then
            v ++ replaceAllFuel m pat v ((c :: rest).drop pat.length)
          else c :: replaceAllFuel m pat v rest)
        by_cases hcond : pat ≠ [] ∧ pat.isPrefixOf (c :: rest)
        · rw [if_pos hcond, if_pos hcond]
          have hlen : ((c :: rest).drop pat.length).length ≤ n := by
            rw [List.length_drop]
            have hpl : 1 ≤ pat.length := by
              cases hp : pat with
              | nil => exact absurd hp hcond.1
              | cons a l => simp
            simp only [List.length_cons] at h1 ⊢
            omega
          have hlen2 : ((c :: rest).drop pat.length).length ≤ m := by
            rw [List.length_drop]
            have hpl : 1 ≤ pat.length := by
              cases hp : pat with
              | nil => exact absurd hp hcond.1
              | cons a l => simp
            simp only [List.length_cons] at h2 ⊢
            omega
          rw [ih _ m hlen hlen2]
        · rw [if_neg hcond, if_neg hcond]
          have hr1 : rest.length ≤ n := by
            simp only [List.length_cons] at h1
            omega
          have hr2 : rest.length ≤ m := by
            simp only [List.length_cons] at h2
            omega
          rw [ih rest m hr1 hr2]

lemma raf_match (pat v rest : Str) (hne : pat ≠ []) (f : Nat) :
    replaceAllFuel (f + 1) pat v (pat ++ rest) = v ++ replaceAllFuel f pat v rest := by
  show (if pat ≠ [] ∧ pat.isPrefixOf (pat ++ rest) then
      v ++ replaceAllFuel f pat v ((pat ++ rest).drop pat.length)
    else match pat ++ rest with
      | [] => []
      | c :: rest2 => c :: replaceAllFuel f pat v rest2)
    = v ++ replaceAllFuel f pat v rest
  rw [if_pos ⟨hne, List.isPrefixOf_iff_prefix.mpr (List.prefix_append pat rest)⟩,
    List.drop_left]

lemma ral_match (pat v rest : Str) (hne : pat ≠ []) :
    replaceAllL pat v (pat ++ rest) = v ++ replaceAllL pat v rest := by
  unfold replaceAllL
  have h1 : 1 ≤ pat.length := by
    cases hp : pat with
    | nil => exact absurd hp hne
    | cons a l => simp
  have hlen : (pat ++ rest).length = (pat.length + rest.length - 1) + 1 := by
    rw [List.length_append]; omega
  rw [hlen, raf_match pat v rest hne _]
  congr 1
  exact raf_congr pat v _ rest _ (by omega) (le_refl _)

lemma ral_step (pat v : Str) (c : Char) (s : Str)
    (hnp : pat.isPrefixOf (c :: s) = false) :
    replaceAllL pat v (c :: s) = c :: replaceAllL pat v s := by
  show replaceAllFuel (c :: s).length pat v (c :: s) = c :: replaceAllL pat v s
  show (if pat ≠ [] ∧ pat.isPrefixOf (c :: s) then
      v ++ replaceAllFuel s.length pat v ((c :: s).drop pat.length)
    else c :: replaceAllFuel s.length pat v s)
    = c :: replaceAllL pat v s
  rw [if_neg]
  · rfl
  · rintro ⟨_, hp⟩
    rw [hnp] at hp
    exact absurd hp (Bool.false_ne_true)

lemma prefix_append_cases (pat x y : Str) (h : pat <+: x ++ y) :
    pat <+: x ∨ x <+: pat := by
  induction x generalizing pat with
  | nil => exact Or.inr (List.nil_prefix)
  | cons a l ih =>
    cases pat with
    | nil => exact Or.inl (List.nil_prefix)
    | cons b m =>
      rw [List.cons_append, List.cons_prefix_cons] at h
      obtain ⟨rfl, h2⟩ := h
      rcases ih m h2 with h3 | h3
      · exact Or.inl (List.cons_prefix_cons.mpr ⟨rfl, h3⟩)
      · exact Or.inr (List.cons_prefix_cons.mpr ⟨rfl, h3⟩)

def segSafe (pat s : Str) : Bool :=
  (List.range s.length).all (fun i =>
    !(pat.isPrefixOf (s.drop i)) && !((s.drop i).isPrefixOf pat))

lemma segSafe_spec (pat s : Str) (h : segSafe pat s = true) :
    ∀ i, i < s.length → ¬ pat <+: s.drop i ∧ ¬ (s.drop i) <+: pat := by
  intro i hi
  have := List.all_eq_true.mp h i (List.mem_range.mpr hi)
  simp only [Bool.and_eq_true, Bool.not_eq_true'] at this
  constructor
  · intro hp
    rw [← List.isPrefixOf_iff_prefix] at hp
    rw [this.1] at hp
    exact Bool.false_ne_true hp
  · intro hp
    rw [← List.isPrefixOf_iff_prefix] at hp
    rw [this.2] at hp
    exact Bool.false_ne_true hp

lemma ral_skip_spec (pat v : Str) : ∀ (s rest : Str),
    (∀ i, i < s.length → ¬ pat <+: s.drop i ∧ ¬ (s.drop i) <+: pat) →
    replaceAllL pat v (s ++ rest) = s ++ replaceAllL pat v rest := by
  intro s
  induction s with
  | nil => intro rest _; rw [List.nil_append, List.nil_append]
  | cons c t ih =>
    intro rest h
    rw [List.cons_append]
    have h0 := h 0 (by simp)
    rw [List.drop_zero] at h0
    have hnp : pat.isPrefixOf (c :: (t ++ rest)) = false := by
      cases hb : pat.isPrefixOf (c :: (t ++ rest)) with
      | false => rfl
      | true =>
        have hpre : pat <+: (c :: t) ++ rest := by
          rw [List.cons_append]
          exact List.isPrefixOf_iff_prefix.mp hb
        rcases prefix_append_cases pat (c :: t) rest hpre with hx | hx
        · exact absurd hx h0.1
        · exact absurd hx h0.2
    rw [ral_step pat v c (t ++ rest) hnp]
    congr 1
    apply ih
    intro i hi
    have := h (i + 1) (by simpa using Nat.succ_lt_succ hi)
    simpa using this

lemma ral_skip (pat v s rest : Str) (h : segSafe pat s = true) :
    replaceAllL pat v (s ++ rest) = s ++ replaceAllL pat v rest :=
  ral_skip_spec pat v s rest (segSafe_spec pat s h)

lemma ral_id (pat v s : Str) (h : segSafe pat s = true) :
    replaceAllL pat v s = s := by
  have := ral_skip pat v s [] h
  rw [List.append_nil] at this
  rw [this]
  show s ++ replaceAllL pat v [] = s
  rw [show replaceAllL pat v [] = [] from rfl, List.append_nil]

lemma ral_self (pat v : Str) (hne : pat ≠ []) : replaceAllL pat v pat = v := by
  have := ral_match pat v [] hne
  rw [List.append_nil] at this
  rw [this]
  rw [show replaceAllL pat v [] = [] from rfl, List.append_nil]

lemma find?_key_cons_false (k q v : Str) (l : List (Str × Str))
    (h : (k == q) = false) :
    ((k, v) :: l).find? (fun p => p.1 == q) = l.find? (fun p => p.1 == q) :=
  find?_cons_false _ _ _ h

lemma find?_key_cons_true (k q v : Str) (l : List (Str × Str))
    (h : (k == q) = true) :
    ((k, v) :: l).find? (fun p => p.1 == q) = some (k, v) :=
  find?_cons_true _ _ _ h

/-- C9 as amended: `{{attacker_ip}}` and `{{attacker_port}}` are not
preserved: the substitution table maps them to the fixed scaffold
constants `ATTACKER_IP` and `4444` (independent of the request, the
client or the token), and rendering a template consisting of either
placeholder yields the constant for every request context. -/
theorem C9_attacker_placeholders_substituted_with_scaffold_constants (req : Req) (client_ip token nowIso : Str) :
    replace_variables (str "\x7b\x7battacker_ip\x7d\x7d") req client_ip token nowIso
      = str "ATTACKER_IP"
    ∧ replace_variables (str "\x7b\x7battacker_port\x7d\x7d") req client_ip token nowIso
      = str "4444"
    ∧ lookupStr (replacements req client_ip token nowIso)
        (str "\x7b\x7battacker_ip\x7d\x7d") = some (str "ATTACKER_IP")
    ∧ lookupStr (replacements req client_ip token nowIso)
        (str "\x7b\x7battacker_port\x7d\x7d") = some (str "4444") := by
  refine ⟨?_, ?_, ?_, ?_⟩
  · unfold replace_variables
    rw [if_neg (by decide)]
    simp only [replacements, List.foldl_cons, List.foldl_nil]
    rw [ral_id (str "\x7b\x7bclient_ip\x7d\x7d") _ (str "\x7b\x7battacker_ip\x7d\x7d") (by decide),
      ral_id (str "\x7b\x7btimestamp\x7d\x7d") _ (str "\x7b\x7battacker_ip\x7d\x7d") (by decide),
      ral_id (str "\x7b\x7bmethod\x7d\x7d") _ (str "\x7b\x7battacker_ip\x7d\x7d") (by decide),
      ral_id (str "\x7b\x7bpath\x7d\x7d") _ (str "\x7b\x7battacker_ip\x7d\x7d") (by decide),
      ral_id (str "\x7b\x7bhost\x7d\x7d") _ (str "\x7b\x7battacker_ip\x7d\x7d") (by decide),
      ral_id (str "\x7b\x7buser_agent\x7d\x7d") _ (str "\x7b\x7battacker_ip\x7d\x7d") (by decide),
      ral_id (str "\x7b\x7bcallback_url\x7d\x7d") _ (str "\x7b\x7battacker_ip\x7d\x7d") (by decide),
      ral_self (str "\x7b\x7battacker_ip\x7d\x7d") (str "ATTACKER_IP") (by decide),
      ral_id (str "\x7b\x7battacker_port\x7d\x7d") (str "4444") (str "ATTACKER_IP") (by decide)]
    rw [show scanParams (str "ATTACKER_IP") = [] from rfl, List.foldl_nil]
  · unfold replace_variables
    rw [if_neg (by decide)]
    simp only [replacements, List.foldl_cons, List.foldl_nil]
    rw [ral_id (str "\x7b\x7bclient_ip\x7d\x7d") _ (str "\x7b\x7battacker_port\x7d\x7d") (by decide),
      ral_id (str "\x7b\x7btimestamp\x7d\x7d") _ (str "\x7b\x7battacker_port\x7d\x7d") (by decide),
      ral_id (str "\x7b\x7bmethod\x7d\x7d") _ (str "\x7b\x7battacker_port\x7d\x7d") (by decide),
      ral_id (str "\x7b\x7bpath\x7d\x7d") _ (str "\x7b\x7battacker_port\x7d\x7d") (by decide),
      ral_id (str "\x7b\x7bhost\x7d\x7d") _ (str "\x7b\x7battacker_port\x7d\x7d") (by decide),
      ral_id (str "\x7b\x7buser_agent\x7d\x7d") _ (str "\x7b\x7battacker_port\x7d\x7d") (by decide),
      ral_id (str "\x7b\x7bcallback_url\x7d\x7d") _ (str "\x7b\x7battacker_port\x7d\x7d") (by decide),
      ral_id (str "\x7b\x7battacker_ip\x7d\x7d") (str "ATTACKER_IP") (str "\x7b\x7battacker_port\x7d\x7d") (by decide),
      ral_self (str "\x7b\x7battacker_port\x7d\x7d") (str "4444") (by decide)]
    rw [show scanParams (str "4444") = [] from rfl, List.foldl_nil]
  · unfold lookupStr replacements
    rw [find?_key_cons_false _ _ _ _ (by decide), find?_key_cons_false _ _ _ _ (by decide),
      find?_key_cons_false _ _ _ _ (by decide), find?_key_cons_false _ _ _ _ (by decide),
      find?_key_cons_false _ _ _ _ (by decide), find?_key_cons_false _ _ _ _ (by decide),
      find?_key_cons_false _ _ _ _ (by decide), find?_key_cons_true _ _ _ _ (by decide)]
    rfl
  · unfold lookupStr replacements
    rw [find?_key_cons_false _ _ _ _ (by decide), find?_key_cons_false _ _ _ _ (by decide),
      find?_key_cons_false _ _ _ _ (by decide), find?_key_cons_false _ _ _ _ (by decide),
      find?_key_cons_false _ _ _ _ (by decide), find?_key_cons_false _ _ _ _ (by decide),
      find?_key_cons_false _ _ _ _ (by decide), find?_key_cons_false _ _ _ _ (by decide),
      find?_key_cons_true _ _ _ _ (by decide)]
    rfl

/-- C9 counterexample: rendering the template `{{attacker_ip}}` (with
variables enabled) yields `ATTACKER_IP`, not the original placeholder
text — the placeholder is substituted, not preserved as-is. -/
theorem C9_counterexample :
    replace_variables (str "\x7b\x7battacker_ip\x7d\x7d") req0 (str "1.2.3.4")
        (str "abc") (str "iso") = str "ATTACKER_IP"
    ∧ str "ATTACKER_IP" ≠ str "\x7b\x7battacker_ip\x7d\x7d" := by
  refine ⟨by decide, by decide⟩

/- ===== C5: the variable-substitution pass structure ===== -/

def SegSafeP (pat s : Str) : Prop :=
  ∀ i, i < s.length → ¬ pat <+: s.drop i ∧ ¬ (s.drop i) <+: pat

lemma segSafeP_of_bool (pat s : Str) (h : segSafe pat s = true) : SegSafeP pat s :=
  segSafe_spec pat s h

lemma segSafeP_ne (pat s : Str) (hne : pat ≠ []) (h : SegSafeP pat s) : s ≠ pat := by
  intro he
  subst he
  have hlen : 0 < s.length := by
    cases hs : s with
    | nil => exact absurd hs hne
    | cons a l => simp [hs]
  have := (h 0 hlen).1
  rw [List.drop_zero] at this
  exact this (List.prefix_refl s)

lemma ral_skipP (pat v s rest : Str) (h : SegSafeP pat s) :
    replaceAllL pat v (s ++ rest) = s ++ replaceAllL pat v rest :=
  ral_skip_spec pat v s rest h

lemma replaceAll_segments (pat v : Str) (hne : pat ≠ []) :
    ∀ (segs : List Str), (∀ s ∈ segs, s = pat ∨ SegSafeP pat s) →
    replaceAllL pat v segs.flatten
      = (segs.map (fun s => if s = pat then v else s)).flatten := by
  intro segs
  induction segs with
  | nil => intro _; rfl
  | cons s t ih =>
    intro h
    rw [List.map_cons, List.flatten_cons, List.flatten_cons]
    by_cases hcase : s = pat
    · subst hcase
      rw [if_pos rfl, ral_match s v t.flatten hne]
      rw [ih (fun x hx => h x (List.mem_cons_of_mem s hx))]
    · have hsafe := (h s (List.mem_cons_self s t)).resolve_left hcase
      rw [if_neg hcase, ral_skipP pat v s t.flatten hsafe]
      rw [ih (fun x hx => h x (List.mem_cons_of_mem s hx))]

/-- "No left brace in the string" — the value/literal side condition. -/
def braceFree (s : Str) : Prop := ∀ c ∈ s, c ≠ '{' ∧ c ≠ '}'

instance (s : Str) : Decidable (braceFree s) := by
  unfold braceFree
  infer_instance

lemma segSafeP_of_braceFree (pat s : Str) (hp : pat.head? = some '{')
    (hs : braceFree s) : SegSafeP pat s := by
  intro i hi
  have hdrop : s.drop i = s[i] :: s.drop (i + 1) := List.drop_eq_getElem_cons hi
  have hmem : s[i] ∈ s := List.getElem_mem hi
  have hne : s[i] ≠ '{' := (hs _ hmem).1
  cases hpat : pat with
  | nil => rw [hpat] at hp; simp at hp
  | cons a l =>
    rw [hpat] at hp
    simp only [List.head?_cons, Option.some.injEq] at hp
    subst hp
    constructor
    · intro hpre
      rw [hdrop, List.cons_prefix_cons] at hpre
      exact hne hpre.1.symm
    · intro hpre
      rw [hdrop, List.cons_prefix_cons] at hpre
      exact hne hpre.1

lemma lookup_none_of_braceFree (table : List (Str × Str))
    (hpat : ∀ p ∈ table, p.1.head? = some '{') (s : Str) (hs : braceFree s) :
    lookupStr table s = none := by
  unfold lookupStr
  rw [List.find?_eq_none.mpr]
  · rfl
  · intro p hp
    have hhead := hpat p hp
    intro hbeq
    have heq : p.1 = s := by simpa using hbeq
    cases hp1 : p.1 with
    | nil => rw [hp1] at hhead; simp at hhead
    | cons a l =>
      rw [hp1] at hhead heq
      simp only [List.head?_cons, Option.some.injEq] at hhead
      subst hhead
      have : '{' ∈ s := heq ▸ List.mem_cons_self _ _
      exact (hs _ this).1 rfl

lemma head_lbrace_ne_nil (pat : Str) (hp : pat.head? = some '{') : pat ≠ [] := by
  intro h
  rw [h] at hp
  simp at hp

lemma table_fold (table : List (Str × Str)) :
    ∀ (segs : List Str),
    (∀ p ∈ table, p.1.head? = some '{' ∧ braceFree p.2) →
    (∀ s ∈ segs, ∀ p ∈ table, s = p.1 ∨ SegSafeP p.1 s) →
    List.foldl (fun c p => replaceAllL p.1 p.2 c) segs.flatten table
      = (segs.map (fun s => (lookupStr table s).getD s)).flatten := by
  induction table with
  | nil =>
    intro segs _ _
    rw [List.foldl_nil]
    congr 1
    have : ∀ s ∈ segs, (lookupStr ([] : List (Str × Str)) s).getD s = s := by
      intro s _
      rfl
    rw [List.map_congr_left this, List.map_id']
  | cons p t ih =>
    intro segs htab hsegs
    have hph := (htab p (List.mem_cons_self p t)).1
    have hpv := (htab p (List.mem_cons_self p t)).2
    have hpne : p.1 ≠ [] := head_lbrace_ne_nil p.1 hph
    rw [List.foldl_cons]
    rw [replaceAll_segments p.1 p.2 hpne segs
      (fun s hs => hsegs s hs p (List.mem_cons_self p t))]
    rw [ih (segs.map (fun s => if s = p.1 then p.2 else s))
      (fun q hq => htab q (List.mem_cons_of_mem p hq)) ?hsegs2]
    case hsegs2 =>
      intro s2 hs2 q hq
      rw [List.mem_map] at hs2
      obtain ⟨s, hs, rfl⟩ := hs2
      by_cases hc : s = p.1
      · rw [if_pos hc]
        exact Or.inr (segSafeP_of_braceFree q.1 p.2
          (htab q (List.mem_cons_of_mem p hq)).1 hpv)
      · rw [if_neg hc]
        exact hsegs s hs q (List.mem_cons_of_mem p hq)
    rw [List.map_map]
    congr 1
    apply List.map_congr_left
    intro s hs
    show (lookupStr t (if s = p.1 then p.2 else s)).getD (if s = p.1 then p.2 else s)
      = (lookupStr (p :: t) s).getD s
    by_cases hc : s = p.1
    · rw [if_pos hc]
      have h1 : lookupStr t p.2 = none :=
        lookup_none_of_braceFree t
          (fun q hq => (htab q (List.mem_cons_of_mem p hq)).1) p.2 hpv
      have h2 : lookupStr (p :: t) s = some p.2 := by
        unfold lookupStr
        rw [find?_cons_true _ _ _ (by simp [hc])]
        rfl
      rw [h1, h2]
      rfl
    · rw [if_neg hc]
      have h2 : lookupStr (p :: t) s = lookupStr t s := by
        unfold lookupStr
        rw [find?_cons_false]
        simp only [beq_eq_false_iff_ne, ne_eq]
        exact fun e => hc e.symm
      rw [h2]

/-- The nine fixed base symbols, in table order. -/
def basePats : List Str :=
  [str "\x7b\x7bclient_ip\x7d\x7d", str "\x7b\x7btimestamp\x7d\x7d",
   str "\x7b\x7bmethod\x7d\x7d", str "\x7b\x7bpath\x7d\x7d",
   str "\x7b\x7bhost\x7d\x7d", str "\x7b\x7buser_agent\x7d\x7d",
   str "\x7b\x7bcallback_url\x7d\x7d", str "\x7b\x7battacker_ip\x7d\x7d",
   str "\x7b\x7battacker_port\x7d\x7d"]

lemma replacements_keys (req : Req) (client_ip token nowIso : Str) :
    (replacements req client_ip token nowIso).map (fun p => p.1) = basePats := rfl

lemma basePats_segSafe :
    ∀ p1 ∈ basePats, ∀ p2 ∈ basePats, p1 ≠ p2 → segSafe p1 p2 = true := by decide

lemma segHalf (pat q : Str) (c : Char) (hp : pat.head? = some '{')
    (hq : q.head? = some c) (hc : c ≠ '{') : ¬ pat <+: q ∧ ¬ q <+: pat := by
  cases pat with
  | nil => simp at hp
  | cons a l =>
    cases q with
    | nil => simp at hq
    | cons b m =>
      simp only [List.head?_cons, Option.some.injEq] at hp hq
      subst hp
      subst hq
      constructor
      · intro h
        rw [List.cons_prefix_cons] at h
        exact hc h.1.symm
      · intro h
        rw [List.cons_prefix_cons] at h
        exact hc h.1

lemma isWordChar_ne_braces (c : Char) (h : isWordChar c = true) :
    c ≠ '{' ∧ c ≠ '}' := by
  constructor
  · intro e
    subst e
    exact absurd h (by decide)
  · intro e
    subst e
    exact absurd h (by decide)

lemma param_inner_noLB (n : Str) (hw : ∀ c ∈ n, isWordChar c = true) :
    ∀ c ∈ ('p' :: 'a' :: 'r' :: 'a' :: 'm' :: '.' :: (n ++ ['}', '}'])), c ≠ '{' := by
  intro c hc
  simp only [List.mem_cons] at hc
  rcases hc with rfl | rfl | rfl | rfl | rfl | rfl | hc
  · decide
  · decide
  · decide
  · decide
  · decide
  · decide
  · rw [List.mem_append] at hc
    rcases hc with hc | hc
    · exact (isWordChar_ne_braces c (hw c hc)).1
    · simp only [List.mem_cons, List.not_mem_nil, or_false] at hc
      rcases hc with rfl | rfl <;> decide

lemma word_close_not_prefix : ∀ (n n' : Str), (∀ c ∈ n, isWordChar c = true) →
    (∀ c ∈ n', isWordChar c = true) → n' ≠ n →
    ¬ (n' ++ ['}', '}']) <+: (n ++ ['}', '}']) := by
  intro n
  induction n with
  | nil =>
    intro n' _ hw' hne hp
    cases n' with
    | nil => exact hne rfl
    | cons b m =>
      rw [List.nil_append, List.cons_append, List.cons_prefix_cons] at hp
      have := hw' b (List.mem_cons_self b m)
      rw [hp.1] at this
      exact absurd this (by decide)
  | cons a l ih =>
    intro n' hw hw' hne hp
    cases n' with
    | nil =>
      rw [List.nil_append, List.cons_append, List.cons_prefix_cons] at hp
      have := hw a (List.mem_cons_self a l)
      rw [← hp.1] at this
      exact absurd this (by decide)
    | cons b m =>
      rw [List.cons_append, List.cons_append, List.cons_prefix_cons] at hp
      obtain ⟨hba, hp2⟩ := hp
      have hml : m ≠ l := by
        intro e
        exact hne (by rw [hba, e])
      exact ih m (fun c hc => hw c (List.mem_cons_of_mem a hc))
        (fun c hc => hw' c (List.mem_cons_of_mem b hc)) hml hp2

lemma drop_head_ne_lb (x : Str) (hx : ∀ c ∈ x, c ≠ '{') (j : Nat)
    (hj : j < x.length) : ∃ c rest, x.drop j = c :: rest ∧ c ≠ '{' :=
  ⟨x[j], x.drop (j + 1), List.drop_eq_getElem_cons hj, hx _ (List.getElem_mem hj)⟩

lemma not_prefix_both_of_sides (pat A z : Str)
    (h1 : ¬ A <+: pat) (h2 : ¬ pat <+: A) :
    ¬ pat <+: (A ++ z) ∧ ¬ (A ++ z) <+: pat := by
  constructor
  · intro h
    rcases List.prefix_or_prefix_of_prefix h (List.prefix_append A z) with hc | hc
    · exact h2 hc
    · exact h1 hc
  · intro h
    exact h1 ((List.prefix_append A z).trans h)

lemma paramPat_eq_cons (n : Str) :
    paramPat n
      = '{' :: '{' :: 'p' :: 'a' :: 'r' :: 'a' :: 'm' :: '.' :: (n ++ ['}', '}']) := rfl

lemma paramPat_assoc (n : Str) :
    paramPat n = str "\x7b\x7bparam." ++ (n ++ str "\x7d\x7d") := by
  unfold paramPat
  rw [List.append_assoc]

lemma base_not_with_A :
    ∀ q ∈ basePats, ¬ (str "\x7b\x7bparam.") <+: q ∧ ¬ q <+: (str "\x7b\x7bparam.") := by
  decide

lemma base_not_with_A1 :
    ∀ q ∈ basePats, ¬ (str "\x7bparam.") <+: q ∧ ¬ q <+: (str "\x7bparam.") := by
  decide

lemma base_head : ∀ q ∈ basePats, q.head? = some '{' := by decide

lemma SegSafeP_base_param (pat : Str) (hpat : pat ∈ basePats) (n : Str)
    (hw : ∀ c ∈ n, isWordChar c = true) : SegSafeP pat (paramPat n) := by
  intro i hi
  rcases i with _ | i
  · rw [List.drop_zero, paramPat_assoc]
    exact not_prefix_both_of_sides pat _ _ (base_not_with_A pat hpat).1
      (base_not_with_A pat hpat).2
  · rcases i with _ | j
    · have hd : (paramPat n).drop 1 = str "\x7bparam." ++ (n ++ str "\x7d\x7d") := rfl
      rw [hd]
      exact not_prefix_both_of_sides pat _ _ (base_not_with_A1 pat hpat).1
        (base_not_with_A1 pat hpat).2
    · have hd : (paramPat n).drop (j + 2)
          = ('p' :: 'a' :: 'r' :: 'a' :: 'm' :: '.' :: (n ++ ['}', '}'])).drop j := rfl
      rw [hd]
      have hj : j < ('p' :: 'a' :: 'r' :: 'a' :: 'm' :: '.' :: (n ++ ['}', '}'])).length := by
        rw [paramPat_eq_cons] at hi
        simp only [List.length_cons] at hi ⊢
        omega
      obtain ⟨c, rest, hc1, hc2⟩ := drop_head_ne_lb _ (param_inner_noLB n hw) j hj
      rw [hc1]
      exact segHalf pat (c :: rest) c (base_head pat hpat) rfl hc2

lemma SegSafeP_param_param (n n' : Str) (hw : ∀ c ∈ n, isWordChar c = true)
    (hw' : ∀ c ∈ n', isWordChar c = true) (hne : n' ≠ n) :
    SegSafeP (paramPat n') (paramPat n) := by
  intro i hi
  rcases i with _ | i
  · rw [List.drop_zero]
    constructor
    · intro h
      rw [paramPat_assoc, paramPat_assoc, List.prefix_append_right_inj] at h
      exact word_close_not_prefix n n' hw hw' hne h
    · intro h
      rw [paramPat_assoc, paramPat_assoc, List.prefix_append_right_inj] at h
      exact word_close_not_prefix n' n hw' hw (fun e => hne e.symm) h
  · rcases i with _ | j
    · have hd : (paramPat n).drop 1
          = '{' :: 'p' :: 'a' :: 'r' :: 'a' :: 'm' :: '.' :: (n ++ ['}', '}']) := rfl
      rw [hd]
      constructor
      · intro h
        rw [paramPat_eq_cons] at h
        rw [List.cons_prefix_cons] at h
        obtain ⟨-, h2⟩ := h
        rw [List.cons_prefix_cons] at h2
        exact absurd h2.1 (by decide)
      · intro h
        rw [paramPat_eq_cons] at h
        rw [List.cons_prefix_cons] at h
        obtain ⟨-, h2⟩ := h
        rw [List.cons_prefix_cons] at h2
        exact absurd h2.1 (by decide)
    · have hd : (paramPat n).drop (j + 2)
          = ('p' :: 'a' :: 'r' :: 'a' :: 'm' :: '.' :: (n ++ ['}', '}'])).drop j := rfl
      rw [hd]
      have hj : j < ('p' :: 'a' :: 'r' :: 'a' :: 'm' :: '.' :: (n ++ ['}', '}'])).length := by
        rw [paramPat_eq_cons] at hi
        simp only [List.length_cons] at hi ⊢
        omega
      obtain ⟨c, rest, hc1, hc2⟩ := drop_head_ne_lb _ (param_inner_noLB n hw) j hj
      rw [hc1]
      exact segHalf (paramPat n') (c :: rest) c rfl rfl hc2

lemma sAux_nil (f : Nat) : scanParamsAux f [] = [] := by
  cases f <;> rfl

lemma tryParamMatch_none_head (c : Char) (s : Str) (hc : c ≠ '{') :
    tryParamMatch (c :: s) = none := by
  unfold tryParamMatch
  rw [if_neg]
  intro h
  have := List.isPrefixOf_iff_prefix.mp h
  rw [show (str "\x7b\x7bparam.") = '{' :: str "\x7bparam." from rfl,
    List.cons_prefix_cons] at this
  exact hc this.1.symm

lemma tryParamMatch_some_facts (s nm rem : Str) (h : tryParamMatch s = some (nm, rem)) :
    rem.length < s.length := by
  simp only [tryParamMatch] at h
  by_cases hp : (str "\x7b\x7bparam.").isPrefixOf s = true
  · rw [if_pos hp] at h
    split at h
    · simp only [Option.some.injEq, Prod.mk.injEq] at h
      obtain ⟨-, hrem⟩ := h
      have hlen : 8 ≤ s.length := by
        have := (List.isPrefixOf_iff_prefix.mp hp).length_le
        simpa using this
      subst hrem
      rw [List.length_drop, List.length_drop, List.length_drop]
      omega
    · exact absurd h (by simp)
  · rw [if_neg hp] at h
    exact absurd h (by simp)

lemma sAux_congr : ∀ (f1 : Nat) (s : Str) (f2 : Nat),
    s.length ≤ f1 → s.length ≤ f2 → scanParamsAux f1 s = scanParamsAux f2 s := by
  intro f1
  induction f1 with
  | zero =>
    intro s f2 h1 _
    have hs : s = [] := List.length_eq_zero.mp (Nat.le_zero.mp h1)
    subst hs
    rw [sAux_nil, sAux_nil]
  | succ n ih =>
    intro s f2 h1 h2
    cases s with
    | nil => rw [sAux_nil, sAux_nil]
    | cons c rest =>
      cases f2 with
      | zero => simp at h2
      | succ m =>
        show (match tryParamMatch (c :: rest) with
          | some (name, rem) => name :: scanParamsAux n rem
          | none => scanParamsAux n rest)
          = (match tryParamMatch (c :: rest) with
          | some (name, rem) => name :: scanParamsAux m rem
          | none => scanParamsAux m rest)
        cases htm : tryParamMatch (c :: rest) with
        | none =>
          simp only
          exact ih rest m (by simp only [List.length_cons] at h1; omega)
            (by simp only [List.length_cons] at h2; omega)
        | some pr =>
          obtain ⟨nm, rem⟩ := pr
          simp only
          have hlt := tryParamMatch_some_facts (c :: rest) nm rem htm
          simp only [List.length_cons] at hlt h1 h2
          rw [ih rem m (by omega) (by omega)]

lemma sAux_step_match (f : Nat) (s nm rem : Str)
    (h : tryParamMatch s = some (nm, rem)) (hs : s ≠ []) :
    scanParamsAux (f + 1) s = nm :: scanParamsAux f rem := by
  cases s with
  | nil => exact absurd rfl hs
  | cons c cs =>
    show (match tryParamMatch (c :: cs) with
      | some (name, rem) => name :: scanParamsAux f rem
      | none => scanParamsAux f cs) = nm :: scanParamsAux f rem
    rw [h]

lemma sAux_skip (x : Str) (hx : ∀ c ∈ x, c ≠ '{') : ∀ (t : Str) (f : Nat),
    (x ++ t).length ≤ f → scanParamsAux f (x ++ t) = scanParamsAux f t := by
  induction x with
  | nil => intro t f _; rw [List.nil_append]
  | cons c x' ih =>
    intro t f hf
    cases f with
    | zero =>
      rw [List.cons_append] at hf
      simp at hf
    | succ f' =>
      rw [List.cons_append]
      show (match tryParamMatch (c :: (x' ++ t)) with
        | some (name, rem) => name :: scanParamsAux f' rem
        | none => scanParamsAux f' (x' ++ t))
        = scanParamsAux (f' + 1) t
      rw [tryParamMatch_none_head c _ (hx c (List.mem_cons_self c x'))]
      show scanParamsAux f' (x' ++ t) = scanParamsAux (f' + 1) t
      have hlen : (x' ++ t).length ≤ f' := by
        rw [List.cons_append, List.length_cons] at hf
        omega
      rw [ih (fun d hd => hx d (List.mem_cons_of_mem c hd)) t f' hlen]
      exact sAux_congr f' t (f' + 1)
        (by rw [List.length_append] at hlen; omega)
        (by rw [List.length_append] at hlen; omega)

lemma takeWhile_word (n : Str) (hw : ∀ c ∈ n, isWordChar c = true) (z : Str) :
    (n ++ '}' :: z).takeWhile isWordChar = n := by
  induction n with
  | nil =>
    rw [List.nil_append, List.takeWhile_cons]
    rw [show isWordChar '}' = false from rfl]
    rfl
  | cons a l ih =>
    rw [List.cons_append, List.takeWhile_cons,
      hw a (List.mem_cons_self a l)]
    rw [ih (fun c hc => hw c (List.mem_cons_of_mem a hc))]
    rfl

lemma tryParam_at_token (n t : Str) (hn : n ≠ [])
    (hw : ∀ c ∈ n, isWordChar c = true) :
    tryParamMatch (paramPat n ++ t) = some (n, t) := by
  have hform : paramPat n ++ t = str "\x7b\x7bparam." ++ (n ++ ('}' :: '}' :: t)) := by
    rw [paramPat_assoc, List.append_assoc, List.append_assoc]
    rfl
  rw [hform]
  simp only [tryParamMatch]
  rw [if_pos (List.isPrefixOf_iff_prefix.mpr (List.prefix_append _ _))]
  have hdrop8 : (str "\x7b\x7bparam." ++ (n ++ ('}' :: '}' :: t))).drop 8
      = n ++ ('}' :: '}' :: t) := by
    rw [show (8 : Nat) = (str "\x7b\x7bparam.").length from rfl, List.drop_left]
  rw [hdrop8, takeWhile_word n hw ('}' :: t)]
  rw [List.drop_left]
  rw [if_pos ⟨hn, List.isPrefixOf_iff_prefix.mpr (List.prefix_append _ _)⟩]
  rfl

/-- A structured template: literal text, one of the nine fixed base
symbols, or a `{{param.NAME}}` placeholder. -/
inductive TItem where
  | lit (s : Str)
  | sym (pat : Str)
  | param (n : Str)
deriving DecidableEq, Repr

/-- The literal text an item contributes to the template string. -/
def itemStr : TItem → Str
  | .lit s => s
  | .sym pat => pat
  | .param n => paramPat n

/-- The template string of a structured template. -/
def flattenTpl (tpl : List TItem) : Str := (tpl.map itemStr).flatten

/-- The parameter names of a template, in order (duplicates kept). -/
def paramNames (tpl : List TItem) : List Str :=
  tpl.filterMap (fun it => match it with
    | TItem.param n => some n
    | _ => none)

/-- One simultaneous substitution pass, the spec's reading of the
symbol table: each base symbol is replaced by its table value, each
`{{param.NAME}}` by the query value (or empty), each literal kept. -/
def renderTItem (req : Req) (client_ip token nowIso : Str) : TItem → Str
  | .lit s => s
  | .sym pat => (lookupStr (replacements req client_ip token nowIso) pat).getD pat
  | .param n => (lookupStr req.query_params n).getD []

/-- The simultaneous single-pass rendering of a structured template. -/
def renderSpec (req : Req) (client_ip token nowIso : Str) (tpl : List TItem) : Str :=
  (tpl.map (renderTItem req client_ip token nowIso)).flatten

/-- Well-formed template: literal segments carry no braces, symbol items
are among the nine base symbols, parameter names are nonempty words. -/
def templateOK (tpl : List TItem) : Prop :=
  ∀ it ∈ tpl, match it with
    | TItem.lit s => braceFree s
    | TItem.sym pat => pat ∈ basePats
    | TItem.param n => n ≠ [] ∧ ∀ c ∈ n, isWordChar c = true

/-- Brace-free context: no substituted value introduces a placeholder
delimiter of its own. -/
def ctxOK (req : Req) (client_ip token nowIso : Str) : Prop :=
  braceFree client_ip ∧ braceFree nowIso ∧ braceFree req.method
  ∧ braceFree req.url_path
  ∧ braceFree ((headerGet req.headers (str "host")).getD (str "unknown"))
  ∧ braceFree ((headerGet req.headers (str "user-agent")).getD (str "unknown"))
  ∧ braceFree token
  ∧ ∀ p ∈ req.query_params, braceFree p.2

lemma braceFree_append (x y : Str) (hx : braceFree x) (hy : braceFree y) :
    braceFree (x ++ y) := by
  intro c hc
  rw [List.mem_append] at hc
  rcases hc with hc | hc
  · exact hx c hc
  · exact hy c hc

lemma replacements_props (req : Req) (client_ip token nowIso : Str)
    (hctx : ctxOK req client_ip token nowIso) :
    ∀ p ∈ replacements req client_ip token nowIso,
      p.1.head? = some '{' ∧ braceFree p.2 := by
  obtain ⟨h1, h2, h3, h4, h5, h6, h7, -⟩ := hctx
  intro p hp
  simp only [replacements, List.mem_cons, List.not_mem_nil, or_false] at hp
  rcases hp with rfl | rfl | rfl | rfl | rfl | rfl | rfl | rfl | rfl
  · refine ⟨rfl, ?_⟩
    by_cases hc : client_ip = []
    · rw [if_pos hc]; decide
    · rw [if_neg hc]; exact h1
  · exact ⟨rfl, h2⟩
  · exact ⟨rfl, h3⟩
  · exact ⟨rfl, h4⟩
  · exact ⟨rfl, h5⟩
  · exact ⟨rfl, h6⟩
  · exact ⟨rfl, braceFree_append _ _ (by decide) h7⟩
  · exact ⟨rfl, by decide⟩
  · exact ⟨rfl, by decide⟩

lemma lookup_some_of_key (table : List (Str × Str)) (k : Str)
    (h : k ∈ table.map (fun p => p.1)) :
    ∃ p, p ∈ table ∧ lookupStr table k = some p.2 ∧ p.1 = k := by
  induction table with
  | nil => simp at h
  | cons q t ih =>
    rw [List.map_cons, List.mem_cons] at h
    by_cases hq : q.1 = k
    · refine ⟨q, List.mem_cons_self q t, ?_, hq⟩
      unfold lookupStr
      rw [find?_cons_true _ _ _ (by simp [hq])]
      rfl
    · rcases h with h | h
      · exact absurd h.symm hq
      · obtain ⟨p, hp, hl, hpk⟩ := ih h
        refine ⟨p, List.mem_cons_of_mem q hp, ?_, hpk⟩
        unfold lookupStr at hl ⊢
        rw [find?_cons_false _ _ _ (by simp [hq])]
        exact hl

lemma lookupStr_some_mem (m : List (Str × Str)) (k v : Str)
    (h : lookupStr m k = some v) : ∃ p ∈ m, p.2 = v := by
  unfold lookupStr at h
  cases hf : m.find? (fun p => p.1 == k) with
  | none => rw [hf] at h; simp at h
  | some p =>
    rw [hf] at h
    simp only [Option.map_some', Option.some.injEq] at h
    exact ⟨p, List.mem_of_find?_eq_some hf, h⟩

lemma paramPat_inj (m n : Str) (h : paramPat m = paramPat n) : m = n := by
  rw [paramPat_assoc, paramPat_assoc] at h
  have h2 := List.append_cancel_left h
  exact List.append_cancel_right h2

lemma lookup_none_of_ne_all (table : List (Str × Str)) (s : Str)
    (h : ∀ p ∈ table, s ≠ p.1) : lookupStr table s = none := by
  unfold lookupStr
  rw [List.find?_eq_none.mpr]
  · rfl
  · intro p hp hbeq
    have heq : p.1 = s := by simpa using hbeq
    exact h p hp heq.symm

lemma find_paramTable (qp : List (Str × Str)) : ∀ (names : List Str) (n : Str),
    n ∈ names →
    lookupStr (names.map (fun m => (paramPat m, (lookupStr qp m).getD [])))
      (paramPat n) = some ((lookupStr qp n).getD []) := by
  intro names
  induction names with
  | nil => intro n h; simp at h
  | cons m t ih =>
    intro n hn
    rw [List.map_cons]
    by_cases hmn : m = n
    · subst hmn
      unfold lookupStr
      rw [find?_key_cons_true _ _ _ _ (by simp)]
      rfl
    · have hne : (paramPat m == paramPat n) = false := by
        rw [beq_eq_false_iff_ne]
        intro e
        exact hmn (paramPat_inj m n e)
      unfold lookupStr
      rw [find?_key_cons_false _ _ _ _ hne]
      have hnt : n ∈ t := by
        rcases List.mem_cons.mp hn with h | h
        · exact absurd h.symm hmn
        · exact h
      exact ih n hnt

/-- An item after the base passes: symbols replaced by their table
values, literals and parameters untouched. -/
def postItem (req : Req) (client_ip token nowIso : Str) : TItem → TItem
  | .sym pat =>
    .lit ((lookupStr (replacements req client_ip token nowIso) pat).getD pat)
  | x => x

lemma paramNames_postItem (req : Req) (client_ip token nowIso : Str)
    (tpl : List TItem) :
    paramNames (tpl.map (postItem req client_ip token nowIso)) = paramNames tpl := by
  unfold paramNames
  rw [List.filterMap_map]
  apply List.filterMap_congr
  intro it _
  cases it <;> rfl

lemma scan_flatten : ∀ (tpl : List TItem) (f : Nat),
    (∀ it ∈ tpl, match it with
      | TItem.lit s => braceFree s
      | TItem.sym _ => False
      | TItem.param n => n ≠ [] ∧ ∀ c ∈ n, isWordChar c = true) →
    (flattenTpl tpl).length ≤ f →
    scanParamsAux f (flattenTpl tpl) = paramNames tpl := by
  intro tpl
  induction tpl with
  | nil => intro f _ _; exact sAux_nil f
  | cons it rest ih =>
    intro f h hf
    have hit := h it (List.mem_cons_self it rest)
    have hflat : flattenTpl (it :: rest) = itemStr it ++ flattenTpl rest := by
      unfold flattenTpl
      rw [List.map_cons, List.flatten_cons]
    cases it with
    | lit s =>
      simp only at hit
      rw [hflat] at hf ⊢
      show scanParamsAux f (s ++ flattenTpl rest) = paramNames (TItem.lit s :: rest)
      rw [sAux_skip s (fun c hc => (hit c hc).1) (flattenTpl rest) f hf]
      have : paramNames (TItem.lit s :: rest) = paramNames rest := rfl
      rw [this]
      refine (sAux_congr f (flattenTpl rest) f ?_ ?_).trans
        (ih f (fun x hx => h x (List.mem_cons_of_mem _ hx)) ?_) <;>
      · rw [List.length_append] at hf
        omega
    | sym pat => exact absurd hit (by simp)
    | param n =>
      simp only at hit
      rw [hflat] at hf ⊢
      simp only [itemStr] at hf
      cases f with
      | zero =>
        exfalso
        rw [List.length_append, paramPat_eq_cons] at hf
        simp at hf
      | succ f' =>
        show scanParamsAux (f' + 1) (paramPat n ++ flattenTpl rest)
          = paramNames (TItem.param n :: rest)
        rw [sAux_step_match f' _ n (flattenTpl rest)
          (tryParam_at_token n (flattenTpl rest) hit.1 hit.2)
          (by rw [paramPat_eq_cons]; simp)]
        have hlen : (flattenTpl rest).length ≤ f' := by
          rw [List.length_append, paramPat_eq_cons] at hf
          simp only [List.length_cons] at hf
          omega
        rw [ih f' (fun x hx => h x (List.mem_cons_of_mem _ hx)) hlen]
        rfl

lemma basePats_ne_nil : ∀ q ∈ basePats, q ≠ [] := by decide

lemma names_ok (tpl : List TItem) (htpl : templateOK tpl) :
    ∀ m ∈ paramNames tpl, m ≠ [] ∧ ∀ c ∈ m, isWordChar c = true := by
  intro m hm
  unfold paramNames at hm
  rw [List.mem_filterMap] at hm
  obtain ⟨it, hit, hsome⟩ := hm
  have := htpl it hit
  cases it with
  | lit s => simp at hsome
  | sym pat => simp at hsome
  | param n =>
    simp only [Option.some.injEq] at hsome
    subst hsome
    exact this

lemma braceFree_nil : braceFree [] := fun c hc => absurd hc (List.not_mem_nil c)

set_option maxHeartbeats 2000000 in
/-- C5 as amended: variable substitution is the fixed-order sequence of
whole-string literal replacement passes (the nine base symbols in table
order, then each `{{param.NAME}}` found in the intermediate text, missing
parameters becoming the empty string); it never throws (total function);
and on any structured template whose literal segments and substituted
values introduce no brace characters it coincides with a single
simultaneous pass over the symbol table — the claimed no-cascading
behaviour holds exactly when no substituted value introduces a later
symbol, and fails otherwise (see the counterexample). -/
theorem C5_substitution_is_ordered_sequential_passes
    (tpl : List TItem) (req : Req) (client_ip token nowIso : Str)
    (htpl : templateOK tpl) (hctx : ctxOK req client_ip token nowIso) :
    replace_variables (flattenTpl tpl) req client_ip token nowIso
      = renderSpec req client_ip token nowIso tpl := by
  have hprops := replacements_props req client_ip token nowIso hctx
  by_cases h0 : flattenTpl tpl = []
  · unfold replace_variables
    rw [if_pos h0, h0]
    symm
    unfold renderSpec
    rw [List.flatten_eq_nil_iff]
    intro x hx
    rw [List.mem_map] at hx
    obtain ⟨it, hit, rfl⟩ := hx
    have hIstr : itemStr it = [] := by
      unfold flattenTpl at h0
      rw [List.flatten_eq_nil_iff] at h0
      exact h0 _ (List.mem_map_of_mem itemStr hit)
    have hI := htpl it hit
    cases it with
    | lit s => exact hIstr
    | sym pat => exact absurd hIstr (basePats_ne_nil pat hI)
    | param n => exact absurd hIstr (by simp [itemStr, paramPat_eq_cons])
  · unfold replace_variables
    rw [if_neg h0]
    have hsegs1 : ∀ s ∈ tpl.map itemStr,
        ∀ p ∈ replacements req client_ip token nowIso, s = p.1 ∨ SegSafeP p.1 s := by
      intro s hs p hp
      rw [List.mem_map] at hs
      obtain ⟨it, hit, rfl⟩ := hs
      have hI := htpl it hit
      have hkey : p.1 ∈ basePats := by
        rw [← replacements_keys req client_ip token nowIso]
        exact List.mem_map_of_mem _ hp
      have hph := (hprops p hp).1
      cases it with
      | lit s => exact Or.inr (segSafeP_of_braceFree p.1 s hph hI)
      | sym pat =>
        by_cases hc : pat = p.1
        · exact Or.inl hc
        · exact Or.inr (segSafeP_of_bool _ _
            (basePats_segSafe p.1 hkey pat hI (fun e => hc e.symm)))
      | param n => exact Or.inr (SegSafeP_base_param p.1 hkey n hI.2)
    have hstep1 : (replacements req client_ip token nowIso).foldl
        (fun c p => replaceAllL p.1 p.2 c) (flattenTpl tpl)
        = ((tpl.map (postItem req client_ip token nowIso)).map itemStr).flatten := by
      unfold flattenTpl
      rw [table_fold _ (tpl.map itemStr) hprops hsegs1]
      congr 1
      rw [List.map_map, List.map_map]
      apply List.map_congr_left
      intro it hit
      have hI := htpl it hit
      cases it with
      | lit s =>
        show (lookupStr (replacements req client_ip token nowIso) s).getD s
          = itemStr (postItem req client_ip token nowIso (TItem.lit s))
        rw [lookup_none_of_braceFree _ (fun p hp => (hprops p hp).1) s hI]
        rfl
      | sym pat => rfl
      | param n =>
        show (lookupStr (replacements req client_ip token nowIso)
            (paramPat n)).getD (paramPat n)
          = itemStr (postItem req client_ip token nowIso (TItem.param n))
        rw [lookup_none_of_ne_all _ (paramPat n) ?hne]
        · rfl
        case hne =>
          intro p hp
          have hkey : p.1 ∈ basePats := by
            rw [← replacements_keys req client_ip token nowIso]
            exact List.mem_map_of_mem _ hp
          exact segSafeP_ne p.1 (paramPat n)
            (head_lbrace_ne_nil p.1 (hprops p hp).1)
            (SegSafeP_base_param p.1 hkey n hI.2)
    rw [hstep1]
    have hpostOK : ∀ it ∈ tpl.map (postItem req client_ip token nowIso),
        match it with
        | TItem.lit s => braceFree s
        | TItem.sym _ => False
        | TItem.param n => n ≠ [] ∧ ∀ c ∈ n, isWordChar c = true := by
      intro it hit
      rw [List.mem_map] at hit
      obtain ⟨jt, hjt, rfl⟩ := hit
      have hI := htpl jt hjt
      cases jt with
      | lit s => exact hI
      | sym pat =>
        show braceFree ((lookupStr (replacements req client_ip token nowIso)
          pat).getD pat)
        have hkey : pat ∈ (replacements req client_ip token nowIso).map
            (fun p => p.1) := by
          rw [replacements_keys]
          exact hI
        obtain ⟨p, hp, hl, -⟩ := lookup_some_of_key _ pat hkey
        rw [hl]
        exact (hprops p hp).2
      | param n => exact hI
    show (scanParams ((tpl.map (postItem req client_ip token nowIso)).map
        itemStr).flatten).foldl _ _ = _
    have hscan : scanParams ((tpl.map (postItem req client_ip token nowIso)).map
        itemStr).flatten = paramNames tpl := by
      unfold scanParams
      have := scan_flatten (tpl.map (postItem req client_ip token nowIso)) _
        hpostOK (le_refl _)
      unfold flattenTpl at this
      rw [this, paramNames_postItem]
    rw [hscan]
    rw [show (paramNames tpl).foldl
        (fun c n => replaceAllL (paramPat n)
          ((lookupStr req.query_params n).getD []) c)
        ((tpl.map (postItem req client_ip token nowIso)).map itemStr).flatten
      = ((paramNames tpl).map
          (fun n => (paramPat n, (lookupStr req.query_params n).getD []))).foldl
        (fun c p => replaceAllL p.1 p.2 c)
        ((tpl.map (postItem req client_ip token nowIso)).map itemStr).flatten
      from (List.foldl_map
        (fun n => (paramPat n, (lookupStr req.query_params n).getD []))
        (fun c p => replaceAllL p.1 p.2 c) (paramNames tpl)
        ((tpl.map (postItem req client_ip token nowIso)).map itemStr).flatten).symm]
    have htab2 : ∀ p ∈ (paramNames tpl).map
        (fun n => (paramPat n, (lookupStr req.query_params n).getD [])),
        p.1.head? = some '{' ∧ braceFree p.2 := by
      intro p hp
      rw [List.mem_map] at hp
      obtain ⟨m, hm, rfl⟩ := hp
      refine ⟨rfl, ?_⟩
      cases hq : lookupStr req.query_params m with
      | none => exact braceFree_nil
      | some v =>
        obtain ⟨pr, hpr, rfl⟩ := lookupStr_some_mem _ m v hq
        exact hctx.2.2.2.2.2.2.2 pr hpr
    have hsegs2 : ∀ s ∈ (tpl.map (postItem req client_ip token nowIso)).map itemStr,
        ∀ p ∈ (paramNames tpl).map
          (fun n => (paramPat n, (lookupStr req.query_params n).getD [])),
        s = p.1 ∨ SegSafeP p.1 s := by
      intro s hs p hp
      rw [List.mem_map] at hs hp
      obtain ⟨it, hit, rfl⟩ := hs
      obtain ⟨m, hm, rfl⟩ := hp
      have hmOK := names_ok tpl htpl m hm
      rw [List.mem_map] at hit
      obtain ⟨jt, hjt, rfl⟩ := hit
      have hI := htpl jt hjt
      cases jt with
      | lit s => exact Or.inr (segSafeP_of_braceFree _ _ rfl hI)
      | sym pat =>
        have hbf : braceFree (itemStr (postItem req client_ip token nowIso
            (TItem.sym pat))) := by
          have hkey : pat ∈ (replacements req client_ip token nowIso).map
              (fun p => p.1) := by
            rw [replacements_keys]
            exact hI
          obtain ⟨pr, hpr, hl, -⟩ := lookup_some_of_key _ pat hkey
          show braceFree ((lookupStr (replacements req client_ip token nowIso)
            pat).getD pat)
          rw [hl]
          exact (hprops pr hpr).2
        exact Or.inr (segSafeP_of_braceFree _ _ rfl hbf)
      | param n =>
        by_cases hc : m = n
        · subst hc
          exact Or.inl rfl
        · exact Or.inr (SegSafeP_param_param n m hI.2 hmOK.2 hc)
    rw [table_fold _ _ htab2 hsegs2]
    unfold renderSpec
    congr 1
    rw [List.map_map, List.map_map]
    apply List.map_congr_left
    intro it hit
    have hI := htpl it hit
    cases it with
    | lit s =>
      show (lookupStr _ s).getD s = renderTItem req client_ip token nowIso (TItem.lit s)
      rw [lookup_none_of_braceFree _ (fun p hp => (htab2 p hp).1) s hI]
      rfl
    | sym pat =>
      have hkey : pat ∈ (replacements req client_ip token nowIso).map
          (fun p => p.1) := by
        rw [replacements_keys]
        exact hI
      obtain ⟨pr, hpr, hl, -⟩ := lookup_some_of_key _ pat hkey
      show (lookupStr _ ((lookupStr (replacements req client_ip token nowIso)
          pat).getD pat)).getD _
        = renderTItem req client_ip token nowIso (TItem.sym pat)
      rw [lookup_none_of_braceFree _ (fun p hp => (htab2 p hp).1) _
        (by rw [hl]; exact (hprops pr hpr).2)]
      rfl
    | param n =>
      have hn : n ∈ paramNames tpl := by
        unfold paramNames
        rw [List.mem_filterMap]
        exact ⟨TItem.param n, hit, rfl⟩
      show (lookupStr _ (paramPat n)).getD (paramPat n)
        = renderTItem req client_ip token nowIso (TItem.param n)
      rw [find_paramTable req.query_params (paramNames tpl) n hn]
      rfl

def ruleEcho : PocRule :=
  { ruleA with
    response_body := some (str "\x7b\x7bclient_ip\x7d\x7d")
    enable_variables := 1 }

def reqC5 : Req :=
  { method := str "GET", url_path := str "/c/abc/p/a", url_query := [],
    query_params := [],
    headers := [(str "x-real-ip", str "\x7b\x7bmethod\x7d\x7d")],
    body := none, client_host := some (str "9.9.9.9") }

/-- C5 counterexample: the client IP resolved from an attacker-controlled
header can itself contain a symbol; rendering `{{client_ip}}` with
`X-Real-IP: {{method}}` yields `GET` — text introduced by the first
substitution is rewritten by the later `{{method}}` pass, so cascading
replacement does happen, contrary to the claim. -/
theorem C5_counterexample :
    get_client_ip reqC5.headers reqC5.client_host = str "\x7b\x7bmethod\x7d\x7d"
    ∧ (match (handle_callback [tokT1] [ruleEcho] (str "abc") (str "p/a") reqC5 0
        (str "iso")).resp with
      | HttpResp.response b _ _ => some b
      | _ => none) = some (str "GET")
    ∧ str "GET" ≠ str "\x7b\x7bmethod\x7d\x7d" := by
  refine ⟨by decide, by decide, by decide⟩

def tplW : List TItem :=
  [TItem.lit (str "hi "), TItem.sym (str "\x7b\x7bmethod\x7d\x7d"),
   TItem.lit (str " x="), TItem.param (str "x")]

def reqW : Req :=
  { method := str "GET", url_path := str "/c/abc", url_query := str "x=1",
    query_params := [(str "x", str "1")], headers := [], body := none,
    client_host := some (str "9.9.9.9") }

/-- C5 witness: the amended theorem at a concrete four-item template and
brace-free context. -/
theorem C5_witness :
    replace_variables (flattenTpl tplW) reqW (str "1.2.3.4") (str "abc") (str "iso")
      = renderSpec reqW (str "1.2.3.4") (str "abc") (str "iso") tplW :=
  C5_substitution_is_ordered_sequential_passes tplW reqW (str "1.2.3.4")
    (str "abc") (str "iso")
    (by
      intro it hit
      fin_cases hit
      · show braceFree (str "hi ")
        decide
      · show (str "\x7b\x7bmethod\x7d\x7d") ∈ basePats
        decide
      · show braceFree (str " x=")
        decide
      · show (str "x") ≠ [] ∧ ∀ c ∈ (str "x"), isWordChar c = true
        decide)
    (by
      refine ⟨by decide, by decide, by decide, by decide, by decide, by decide,
        by decide, ?_⟩
      intro p hp
      fin_cases hp
      decide)
